import Mathlib

/-!
Verification development for the knowledge-card distillation pipeline
(`backend/services/distillation_pipeline.py` and `backend/services/ai_service.py`).

The development shallowly embeds the pipeline in Lean:

* `Json` models the values produced by Python's `json.loads`; numbers keep their
  source literal (the non-standard `NaN`/`Infinity` float literals, whose Python
  semantics is floating-point, are outside the model, as are lone-surrogate
  escapes, which Lean strings cannot represent).
* `parseF` models `json.loads` (the strict CPython decoder grammar: the four
  JSON whitespace characters, strings with escapes, maximal-munch numbers,
  arrays and objects with `dict`-style duplicate-key resolution).
* `parse_json` models `DistillationPipeline._parse_json` (markdown fence
  stripping followed by `json.loads`); `dumps` models `json.dumps` with its
  default separators and `ensure_ascii=False`.
* The gateway (`AIService._call_api`) is modelled as an oracle indexed by the
  order of the calls: `Gateway.responses n` is the text the n-th call would
  return (`none` for an HTTP/transport failure), and `Gateway.configured`
  models `settings.ai_configured`.  Message payloads (the prompts) do not
  influence any verified property and are elided; image loading
  (`AIService._image_to_base64`) is abstracted by `Env.resolve`.
* `runPipeline` models `DistillationPipeline.run` including its fallback
  control flow, the Python attribute/type errors raised by `.get`, slicing and
  `append` on wrongly-typed model output (an exception escaping `run` is
  `Except.error ()`), the `stages_completed` trace and the gateway call
  count.  Telegram notification delivery is fire-and-forget in the source
  (`_notify` swallows every exception) and is not modelled, but the f-string
  argument evaluation in `run` happens before `_notify` is entered and can
  raise, so it is.
* `extract_urls` models `_extract_urls`; `list(set(urls))` is modelled as
  first-occurrence de-duplication, fixing canonically the one set-iteration
  order a given interpreter session uses.
-/

/-! ## Python string helpers -/

/-- Whitespace for Python's `str.strip` (ASCII part, which is what the pipeline feeds it). -/
def pySpace (c : Char) : Bool :=
  c = ' ' || c = '\t' || c = '\n' || c = '\r' || c = '\x0b' || c = '\x0c'

/-- Whitespace skipped by the CPython JSON decoder (exactly these four). -/
def jsonSpace (c : Char) : Bool :=
  c = ' ' || c = '\t' || c = '\n' || c = '\r'

def skipWs (l : List Char) : List Char := l.dropWhile jsonSpace

/-- Model of `str.strip()` on the character list. -/
def pyStripL (l : List Char) : List Char :=
  ((l.dropWhile pySpace).reverse.dropWhile pySpace).reverse

/-- Model of `s.strip()`. -/
def pyStrip (s : String) : String := String.mk (pyStripL s.data)

/-- Model of Python slicing `s[:n]` (by characters, like Python). -/
def pyTake (s : String) (n : Nat) : String := String.mk (s.data.take n)

def isDigit (c : Char) : Bool := '0' ≤ c && c ≤ '9'

def isDigit19 (c : Char) : Bool := '1' ≤ c && c ≤ '9'

/-! ## The JSON value model -/

/-- Values produced by `json.loads`.  A number keeps the literal it was written
with; `ratOfLit` interprets it when the pipeline compares it numerically. -/
inductive Json where
  | null
  | bool (b : Bool)
  | num (lit : String)
  | str (s : String)
  | arr (elems : List Json)
  | obj (fields : List (String × Json))

/-- Digits of a literal read as a natural number. -/
def digitsToNat (ds : List Char) : Nat :=
  ds.foldl (fun a c => a * 10 + (c.toNat - 48)) 0

/-- Sign, mantissa and decimal exponent of a JSON number literal: the
literal's value is `±mantissa·10^exponent`.  The source compares CPython
doubles, which agree with the exact value on every literal the pipeline's
checks use. -/
def litParts (l : List Char) : Bool × Nat × Int :=
  let (neg, l1) := match l with
    | '-' :: r => (true, r)
    | _ => (false, l)
  let ip := l1.takeWhile isDigit
  let r1 := l1.dropWhile isDigit
  let (fd, r2) := match r1 with
    | '.' :: r => (r.takeWhile isDigit, r.dropWhile isDigit)
    | _ => ([], r1)
  let ev : Int := match r2 with
    | 'e' :: '+' :: r3 => (digitsToNat (r3.takeWhile isDigit) : Int)
    | 'e' :: '-' :: r3 => -(digitsToNat (r3.takeWhile isDigit) : Int)
    | 'e' :: r3 => (digitsToNat (r3.takeWhile isDigit) : Int)
    | 'E' :: '+' :: r3 => (digitsToNat (r3.takeWhile isDigit) : Int)
    | 'E' :: '-' :: r3 => -(digitsToNat (r3.takeWhile isDigit) : Int)
    | 'E' :: r3 => (digitsToNat (r3.takeWhile isDigit) : Int)
    | _ => 0
  (neg, digitsToNat (ip ++ fd), ev - (fd.length : Int))

/-- Numeric value of a JSON number literal (exact rational). -/
def ratOfLit (l : List Char) : ℚ :=
  let (neg, m, e) := litParts l
  let mag : ℚ := (m : ℚ) * (10 : ℚ) ^ e
  if neg then -mag else mag

/-- Python truthiness of a decoded JSON value.  A regex-shaped number is
truthy exactly when its mantissa is nonzero (a power of ten never vanishes);
the constants `nan`, `inf` and `-inf` are all truthy. -/
def jsonTruthy : Json → Bool
  | .null => false
  | .bool b => b
  | .num lit =>
    if lit = "NaN" ∨ lit = "Infinity" ∨ lit = "-Infinity" then true
    else (litParts lit.data).2.1 ≠ 0
  | .str s => s ≠ ""
  | .arr l => !l.isEmpty
  | .obj fs => !fs.isEmpty

/-- Lookup in a decoded object (`dict.get(k)` without default; decoded objects
have unique keys, so first match is the Python semantics). -/
def jLookup (fs : List (String × Json)) (k : String) : Option Json :=
  match fs with
  | [] => none
  | (k0, v) :: t => if k0 = k then some v else jLookup t k

/-- Model of `d.get(k, default)` on an object. -/
def jGetD (j : Json) (k : String) (d : Json) : Json :=
  match j with
  | .obj fs => (jLookup fs k).getD d
  | _ => d

/-- Model of `d.get(k)` (missing key gives Python `None`). -/
def jGetN (j : Json) (k : String) : Json := jGetD j k .null

def isObj : Json → Bool
  | .obj _ => true
  | _ => false

/-- Model of `d[k] = v` on a `dict`: replace in place, or append a new key. -/
def jSet (fs : List (String × Json)) (k : String) (v : Json) : List (String × Json) :=
  match fs with
  | [] => [(k, v)]
  | (k0, v0) :: t => if k0 = k then (k0, v) :: t else (k0, v0) :: jSet t k v

/-! ## The `json.loads` model: number scanner -/

/-- Optional leading minus sign. -/
def scanSign : List Char → List Char × List Char
  | '-' :: r => (['-'], r)
  | l => ([], l)

/-- Integer part: `0` or a nonzero digit followed by digits (maximal munch). -/
def scanInt : List Char → Option (List Char × List Char)
  | '0' :: r => some (['0'], r)
  | c :: r =>
    if isDigit19 c then some (c :: r.takeWhile isDigit, r.dropWhile isDigit) else none
  | [] => none

/-- Optional fraction: consumed only when a digit follows the dot, as in the
CPython `NUMBER_RE` group `(\.\d+)?`. -/
def scanFrac : List Char → List Char × List Char
  | '.' :: r =>
    if (r.takeWhile isDigit).isEmpty then ([], '.' :: r)
    else ('.' :: r.takeWhile isDigit, r.dropWhile isDigit)
  | l => ([], l)

/-- Optional exponent: consumed only when at least one digit follows. -/
def scanExp : List Char → List Char × List Char
  | c :: r =>
    if c = 'e' || c = 'E' then
      match r with
      | '+' :: r2 =>
        if (r2.takeWhile isDigit).isEmpty then ([], c :: r)
        else (c :: '+' :: r2.takeWhile isDigit, r2.dropWhile isDigit)
      | '-' :: r2 =>
        if (r2.takeWhile isDigit).isEmpty then ([], c :: r)
        else (c :: '-' :: r2.takeWhile isDigit, r2.dropWhile isDigit)
      | r2 =>
        if (r2.takeWhile isDigit).isEmpty then ([], c :: r)
        else (c :: r2.takeWhile isDigit, r2.dropWhile isDigit)
    else ([], c :: r)
  | [] => ([], [])

/-- Model of the CPython JSON number regex match at the head of the input:
returns the matched literal and the remaining text. -/
def scanNumber (cs : List Char) : Option (List Char × List Char) :=
  let (sg, r0) := scanSign cs
  match scanInt r0 with
  | none => none
  | some (ip, r1) =>
    let (fp, r2) := scanFrac r1
    let (ep, r3) := scanExp r2
    some (sg ++ ip ++ fp ++ ep, r3)

/-! ## The `json.loads` model: strings -/

def hexVal (c : Char) : Option Nat :=
  if '0' ≤ c && c ≤ '9' then some (c.toNat - 48)
  else if 'a' ≤ c && c ≤ 'f' then some (c.toNat - 87)
  else if 'A' ≤ c && c ≤ 'F' then some (c.toNat - 55)
  else none

/-- Two-character escapes accepted after a backslash. -/
def escChar (c : Char) : Option Char :=
  if c = '"' then some '"'
  else if c = '\\' then some '\\'
  else if c = '/' then some '/'
  else if c = 'b' then some '\x08'
  else if c = 'f' then some '\x0c'
  else if c = 'n' then some '\n'
  else if c = 'r' then some '\r'
  else if c = 't' then some '\t'
  else none

/-- Body of a JSON string after the opening quote, strict mode: raw control
characters are refused, `\uXXXX` decodes a scalar value (surrogate escapes are
outside the model).  Returns the decoded characters and the text after the
closing quote. -/
def parseStringBody : List Char → Option (List Char × List Char)
  | [] => none
  | c :: r =>
    if c = '"' then some ([], r)
    else if c = '\\' then
      match r with
      | 'u' :: h1 :: h2 :: h3 :: h4 :: r2 =>
        match hexVal h1, hexVal h2, hexVal h3, hexVal h4 with
        | some a, some b, some c1, some d =>
          let n := ((a * 16 + b) * 16 + c1) * 16 + d
          if 0xd800 ≤ n && n ≤ 0xdfff then none
          else
            match parseStringBody r2 with
            | some (cs, rest) => some (Char.ofNat n :: cs, rest)
            | none => none
        | _, _, _, _ => none
      | e :: r2 =>
        match escChar e with
        | some c1 =>
          match parseStringBody r2 with
          | some (cs, rest) => some (c1 :: cs, rest)
          | none => none
        | none => none
      | [] => none
    else if c.toNat < 32 then none
    else
      match parseStringBody r with
      | some (cs, rest) => some (c :: cs, rest)
      | none => none

/-! ## The `json.loads` model: values -/

/-- Model of `dict.__setitem__` during `dict(pairs)`: an existing key keeps its
position and takes the new value. -/
def dictInsert (fs : List (String × Json)) (k : String) (v : Json) :
    List (String × Json) :=
  match fs with
  | [] => [(k, v)]
  | (k0, v0) :: t => if k0 = k then (k0, v) :: t else (k0, v0) :: dictInsert t k v

/-- Model of `dict(pairs)`: the decoder collects the members in order and builds
the dictionary, so a repeated key keeps its first position and last value. -/
def dictPairs (ps : List (String × Json)) : List (String × Json) :=
  ps.foldl (fun acc p => dictInsert acc p.1 p.2) []

/-- Intermediate results of the decoder. -/
inductive POut where
  | val (v : Json)
  | elems (l : List Json)
  | members (l : List (String × Json))

/-- Decoder modes: a value, the inside of an array (at the first element or
after an element), the inside of an object likewise. -/
inductive PMode where
  | value
  | elems0
  | elems1
  | members0
  | members1

/-- The scanner's constant branch: after the number regex fails to match,
CPython tries the literals `NaN`, `Infinity` and `-Infinity` in that order
(`parse_constant` turns them into the corresponding doubles; the model
keeps the literal). -/
def parseConst (cs : List Char) : Option (POut × List Char) :=
  if "NaN".data.isPrefixOf cs then
    some (POut.val (Json.num "NaN"), cs.drop 3)
  else if "Infinity".data.isPrefixOf cs then
    some (POut.val (Json.num "Infinity"), cs.drop 8)
  else if "-Infinity".data.isPrefixOf cs then
    some (POut.val (Json.num "-Infinity"), cs.drop 9)
  else none

/-- Fuel-indexed model of the CPython JSON scanner.  Whitespace is skipped at
exactly the points the decoder skips it; `true`/`false`/`null` are matched by
literal prefix; numbers by `scanNumber`, falling back to the `NaN`/`Infinity`
constants.  The fuel only bounds recursion depth: `loadsL` passes more fuel
than any input can consume. -/
def parseF : Nat → PMode → List Char → Option (POut × List Char)
  | 0, _, _ => none
  | Nat.succ f, PMode.value, cs =>
    match cs with
    | [] => none
    | c :: r =>
      if c = '\x7b' then
        match parseF f PMode.members0 (skipWs r) with
        | some (POut.members m, rest) => some (POut.val (Json.obj (dictPairs m)), rest)
        | _ => none
      else if c = '[' then
        match parseF f PMode.elems0 (skipWs r) with
        | some (POut.elems l, rest) => some (POut.val (Json.arr l), rest)
        | _ => none
      else if c = '"' then
        match parseStringBody r with
        | some (cs1, rest) => some (POut.val (Json.str (String.mk cs1)), rest)
        | none => none
      else if c = 't' then
        if "rue".data.isPrefixOf r then some (POut.val (Json.bool true), r.drop 3) else none
      else if c = 'f' then
        if "alse".data.isPrefixOf r then some (POut.val (Json.bool false), r.drop 4) else none
      else if c = 'n' then
        if "ull".data.isPrefixOf r then some (POut.val Json.null, r.drop 3) else none
      else
        match scanNumber (c :: r) with
        | some (lit, rest) => some (POut.val (Json.num (String.mk lit)), rest)
        | none => parseConst (c :: r)
  | Nat.succ f, PMode.elems0, cs =>
    match cs with
    | [] => none
    | c :: r =>
      if c = ']' then some (POut.elems [], r)
      else
        match parseF f PMode.value (c :: r) with
        | some (POut.val v, rest) =>
          match parseF f PMode.elems1 (skipWs rest) with
          | some (POut.elems l, r2) => some (POut.elems (v :: l), r2)
          | _ => none
        | _ => none
  | Nat.succ f, PMode.elems1, cs =>
    match cs with
    | [] => none
    | c :: r =>
      if c = ']' then some (POut.elems [], r)
      else if c = ',' then
        match parseF f PMode.value (skipWs r) with
        | some (POut.val v, rest) =>
          match parseF f PMode.elems1 (skipWs rest) with
          | some (POut.elems l, r2) => some (POut.elems (v :: l), r2)
          | _ => none
        | _ => none
      else none
  | Nat.succ f, PMode.members0, cs =>
    match cs with
    | [] => none
    | c :: r =>
      if c = '\x7d' then some (POut.members [], r)
      else if c = '"' then
        match parseStringBody r with
        | some (kcs, r1) =>
          match skipWs r1 with
          | [] => none
          | c2 :: r2 =>
            if c2 = ':' then
              match parseF f PMode.value (skipWs r2) with
              | some (POut.val v, rest) =>
                match parseF f PMode.members1 (skipWs rest) with
                | some (POut.members m, r3) =>
                  some (POut.members ((String.mk kcs, v) :: m), r3)
                | _ => none
              | _ => none
            else none
        | none => none
      else none
  | Nat.succ f, PMode.members1, cs =>
    match cs with
    | [] => none
    | c :: r =>
      if c = '\x7d' then some (POut.members [], r)
      else if c = ',' then
        match skipWs r with
        | [] => none
        | c1 :: r1 =>
          if c1 = '"' then
            match parseStringBody r1 with
            | some (kcs, r2) =>
              match skipWs r2 with
              | [] => none
              | c2 :: r3 =>
                if c2 = ':' then
                  match parseF f PMode.value (skipWs r3) with
                  | some (POut.val v, rest) =>
                    match parseF f PMode.members1 (skipWs rest) with
                    | some (POut.members m, r4) =>
                      some (POut.members ((String.mk kcs, v) :: m), r4)
                    | _ => none
                  | _ => none
                else none
            | none => none
          else none
      else none

/-- Model of `json.loads` on a character list: leading whitespace, one value,
trailing whitespace, nothing else.  `none` is the raised `JSONDecodeError`. -/
def loadsL (l : List Char) : Option Json :=
  let l1 := skipWs l
  match parseF (2 * l1.length + 1) PMode.value l1 with
  | some (POut.val v, rest) => if skipWs rest = [] then some v else none
  | _ => none

/-! ## Model of `DistillationPipeline._parse_json` -/

/-- Fence stripping of `_parse_json` (lines 579-585 of the source) followed by
the final `.strip()` of line 587. -/
def cleanFences (l : List Char) : List Char :=
  let c0 := pyStripL l
  let c1 := if "```json".data.isPrefixOf c0 then c0.drop 7 else c0
  let c2 := if "```".data.isPrefixOf c1 then c1.drop 3 else c1
  let c3 := if "```".data.isSuffixOf c2 then c2.take (c2.length - 3) else c2
  pyStripL c3

/-- Model of `DistillationPipeline._parse_json` on a string argument: empty
text short-circuits to `{}`; otherwise fences are stripped and the rest goes
to `json.loads`.  `none` is the exception the callers catch. -/
def parse_json (t : String) : Option Json :=
  if t.data = [] then some (Json.obj [])
  else loadsL (cleanFences t.data)

/-- Model of `_parse_json` as the stages call it, on the `Optional[str]` the
gateway returned: `if not text` also catches `None`. -/
def parseJsonOpt : Option String → Option Json
  | none => some (Json.obj [])
  | some t => if t = "" then some (Json.obj []) else parse_json t

example : parse_json "\x7b\"a\": 1\x7d" = some (Json.obj [("a", Json.num "1")]) := by
  rfl

example : parse_json "```json\n\x7b\"a\": 1\x7d\n```" =
    some (Json.obj [("a", Json.num "1")]) := by rfl

example : parse_json "[1, 2]" = some (Json.arr [Json.num "1", Json.num "2"]) := by rfl

example : parse_json "\x7b\"a\": \x7b\x7d, \"a\": true\x7d" =
    some (Json.obj [("a", Json.bool true)]) := by rfl

example : parse_json "```js\n\x7b\"a\": 1\x7d\n```" = none := by rfl

example : parse_json "  \"hi\"  " = some (Json.str "hi") := by rfl

/-! ## Model of `json.dumps` (default separators, `ensure_ascii=False`) -/

def hexDig (n : Nat) : Char := "0123456789abcdef".data.getD n '0'

/-- Escaping of one character as `json.dumps` with `ensure_ascii=False` does it:
quote, backslash and the five short control escapes, `\u00XX` for the other
control characters, everything else raw. -/
def escapeChar (c : Char) : List Char :=
  if c = '"' then ['\\', '"']
  else if c = '\\' then ['\\', '\\']
  else if c = '\n' then ['\\', 'n']
  else if c = '\t' then ['\\', 't']
  else if c = '\r' then ['\\', 'r']
  else if c = '\x08' then ['\\', 'b']
  else if c = '\x0c' then ['\\', 'f']
  else if c.toNat < 32 then ['\\', 'u', '0', '0', hexDig (c.toNat / 16), hexDig (c.toNat % 16)]
  else [c]

def escapeChars (l : List Char) : List Char :=
  l.foldr (fun c acc => escapeChar c ++ acc) []

def dumpsString (s : String) : List Char := '"' :: escapeChars s.data ++ ['"']

mutual

def dumpsV : Json → List Char
  | .null => "null".data
  | .bool true => "true".data
  | .bool false => "false".data
  | .num lit => lit.data
  | .str s => dumpsString s
  | .arr l => '[' :: dumpsElems l ++ [']']
  | .obj m => '\x7b' :: dumpsMembers m ++ ['\x7d']

def dumpsElems : List Json → List Char
  | [] => []
  | v :: t => dumpsV v ++ dumpsTailE t

def dumpsTailE : List Json → List Char
  | [] => []
  | v :: t => ',' :: ' ' :: dumpsV v ++ dumpsTailE t

def dumpsMembers : List (String × Json) → List Char
  | [] => []
  | (k, v) :: t => dumpsString k ++ ':' :: ' ' :: dumpsV v ++ dumpsTailM t

def dumpsTailM : List (String × Json) → List Char
  | [] => []
  | (k, v) :: t => ',' :: ' ' :: dumpsString k ++ ':' :: ' ' :: dumpsV v ++ dumpsTailM t

end

/-- Model of `json.dumps` (the spec's `serialize`). -/
def dumps (v : Json) : String := String.mk (dumpsV v)

/-! ## Number literal shapes -/

def SignShape (sg : List Char) : Prop := sg = [] ∨ sg = ['-']

def IntShape (ip : List Char) : Prop :=
  ip = ['0'] ∨ ∃ c ds, ip = c :: ds ∧ isDigit19 c = true ∧ ∀ d ∈ ds, isDigit d = true

def FracShape (fp : List Char) : Prop :=
  fp = [] ∨ ∃ ds, fp = '.' :: ds ∧ ds ≠ [] ∧ ∀ d ∈ ds, isDigit d = true

def ExpShape (ep : List Char) : Prop :=
  ep = [] ∨ ∃ e sg ds, ep = e :: sg ++ ds ∧ (e = 'e' ∨ e = 'E') ∧
    (sg = [] ∨ sg = ['+'] ∨ sg = ['-']) ∧ ds ≠ [] ∧ ∀ d ∈ ds, isDigit d = true

/-- Shape of a complete JSON number literal. -/
def NumShape (lit : List Char) : Prop :=
  ∃ sg ip fp ep, lit = sg ++ ip ++ fp ++ ep ∧ SignShape sg ∧ IntShape ip ∧
    FracShape fp ∧ ExpShape ep

/-- Text that cannot extend a preceding number literal. -/
def DelimOk (rest : List Char) : Prop :=
  ∀ c, rest.head? = some c → isDigit c = false ∧ c ≠ '.' ∧ c ≠ 'e' ∧ c ≠ 'E'

/-- Values the decoder can produce: number literals are well-shaped and object
keys are distinct. -/
inductive ValidJ : Json → Prop where
  | null : ValidJ .null
  | bool (b : Bool) : ValidJ (.bool b)
  | num (lit : String) :
      NumShape lit.data ∨ lit = "NaN" ∨ lit = "Infinity" ∨ lit = "-Infinity" →
      ValidJ (.num lit)
  | str (s : String) : ValidJ (.str s)
  | arr (l : List Json) : (∀ v ∈ l, ValidJ v) → ValidJ (.arr l)
  | obj (m : List (String × Json)) : (m.map Prod.fst).Nodup →
      (∀ p ∈ m, ValidJ p.2) → ValidJ (.obj m)

/-! ## takeWhile and dropWhile helpers -/

theorem takeWhile_all_append (p : Char → Bool) (ds rest : List Char)
    (h1 : ∀ c ∈ ds, p c = true) (h2 : ∀ c, rest.head? = some c → p c = false) :
    (ds ++ rest).takeWhile p = ds ∧ (ds ++ rest).dropWhile p = rest := by
  induction ds with
  | nil =>
    cases rest with
    | nil => simp
    | cons c t => simp [List.takeWhile_cons, List.dropWhile_cons, h2 c rfl]
  | cons c t ih =>
    have hc := h1 c (by simp)
    have iht := ih (fun d hd => h1 d (by simp [hd]))
    simp [List.takeWhile_cons, List.dropWhile_cons, hc, iht.1, iht.2]

theorem dropWhile_head_false (p : Char → Bool) (l : List Char)
    (h : ∀ c, l.head? = some c → p c = false) : l.dropWhile p = l := by
  cases l with
  | nil => simp
  | cons c t => simp [List.dropWhile_cons, h c rfl]

theorem mem_takeWhile_digit (l : List Char) :
    ∀ c ∈ l.takeWhile isDigit, isDigit c = true := by
  intro c hc
  exact List.mem_takeWhile_imp hc

/-! ## Character facts -/

theorem digit_ne {c : Char} (h : isDigit c = true) {d : Char}
    (hd : isDigit d = false) : c ≠ d := by
  rintro rfl
  rw [h] at hd
  simp at hd

theorem digit19_digit {c : Char} (h : isDigit19 c = true) : isDigit c = true := by
  unfold isDigit19 at h
  unfold isDigit
  have h1 := (Bool.and_eq_true _ _).mp h
  have h0 : '0' ≤ c := le_trans (by decide) (of_decide_eq_true h1.1)
  simp [h0, h1.2]

theorem digit19_ne_zero {c : Char} (h : isDigit19 c = true) : c ≠ '0' := by
  rintro rfl
  simp [isDigit19] at h

/-! ## Scanner phase lemmas: completeness under append -/

theorem scanSign_minus (r : List Char) : scanSign ('-' :: r) = (['-'], r) := rfl

theorem scanSign_other {c : Char} (r : List Char) (h : c ≠ '-') :
    scanSign (c :: r) = ([], c :: r) := by
  unfold scanSign
  split
  · rename_i heq
    cases heq
    exact absurd rfl h
  · rfl

theorem scanInt_app {ip : List Char} (rest : List Char) (h : IntShape ip)
    (hr : ∀ c, rest.head? = some c → isDigit c = false) :
    scanInt (ip ++ rest) = some (ip, rest) := by
  rcases h with h0 | ⟨c, ds, rfl, hc, hds⟩
  · subst h0
    rfl
  · have hne := digit19_ne_zero hc
    have htw := takeWhile_all_append isDigit ds rest hds hr
    show scanInt (c :: (ds ++ rest)) = _
    unfold scanInt
    split
    · rename_i heq
      cases heq
      exact absurd rfl hne
    · rename_i c' r' heq
      cases heq
      simp [hc, htw.1, htw.2]
    · rename_i heq
      cases heq

theorem scanFrac_app {fp : List Char} (rest : List Char) (h : FracShape fp)
    (hdot : fp = [] → ∀ c, rest.head? = some c → c ≠ '.')
    (hr : ∀ c, rest.head? = some c → isDigit c = false) :
    scanFrac (fp ++ rest) = (fp, rest) := by
  rcases h with h0 | ⟨ds, rfl, hne, hds⟩
  · subst h0
    simp only [List.nil_append]
    unfold scanFrac
    split
    · exact absurd rfl (hdot rfl '.' rfl)
    · rfl
  · have htw := takeWhile_all_append isDigit ds rest hds hr
    show scanFrac ('.' :: (ds ++ rest)) = _
    unfold scanFrac
    split
    · rename_i heq
      cases heq
      simp [htw.1, htw.2, hne]
    · rename_i hcon
      exact absurd rfl (hcon (ds ++ rest))

theorem scanExp_app {ep : List Char} (rest : List Char) (h : ExpShape ep)
    (he : ep = [] → ∀ c, rest.head? = some c → c ≠ 'e' ∧ c ≠ 'E')
    (hr : ∀ c, rest.head? = some c → isDigit c = false) :
    scanExp (ep ++ rest) = (ep, rest) := by
  rcases h with h0 | ⟨e, sg, ds, rfl, hE, hsg, hne, hds⟩
  · subst h0
    simp only [List.nil_append]
    cases rest with
    | nil => rfl
    | cons c r =>
      have hc := he rfl c rfl
      unfold scanExp
      have : (c = 'e' || c = 'E') = false := by
        simp [hc.1, hc.2]
      simp [this]
  · have htw := takeWhile_all_append isDigit ds rest hds hr
    have heE : (e = 'e' || e = 'E') = true := by
      rcases hE with rfl | rfl <;> simp
    have hemp : (ds ++ rest).takeWhile isDigit ≠ [] := by
      rw [htw.1]; exact hne
    rcases hsg with rfl | rfl | rfl
    · obtain ⟨d, ds', rfl⟩ : ∃ d ds', ds = d :: ds' := by
        cases ds with
        | nil => exact absurd rfl hne
        | cons d ds' => exact ⟨d, ds', rfl⟩
      have hd := hds d (by simp)
      have hdplus : d ≠ '+' := digit_ne hd (by decide)
      have hdminus : d ≠ '-' := digit_ne hd (by decide)
      simp only [List.nil_append, List.cons_append] at htw hemp ⊢
      show scanExp (e :: d :: (ds' ++ rest)) = (e :: d :: ds', rest)
      simp only [scanExp, heE, if_true]
      split
      · rename_i heq
        cases heq
        exact absurd rfl hdplus
      · rename_i heq
        cases heq
        exact absurd rfl hdminus
      · rename_i h1 h2
        have hfalse : (List.takeWhile isDigit (d :: (ds' ++ rest))).isEmpty = false := by
          rw [htw.1]; rfl
        rw [hfalse]
        simp only [Bool.false_eq_true, if_false, htw.1, htw.2]
    · show scanExp (e :: '+' :: (ds ++ rest)) = (e :: ['+'] ++ ds, rest)
      simp only [scanExp, heE, if_true]
      have hfalse : (List.takeWhile isDigit (ds ++ rest)).isEmpty = false := by
        rw [htw.1]
        cases ds with
        | nil => exact absurd rfl hne
        | cons d t => rfl
      rw [hfalse]
      simp only [Bool.false_eq_true, if_false, htw.1, htw.2]
      simp
    · show scanExp (e :: '-' :: (ds ++ rest)) = (e :: ['-'] ++ ds, rest)
      simp only [scanExp, heE, if_true]
      have hfalse : (List.takeWhile isDigit (ds ++ rest)).isEmpty = false := by
        rw [htw.1]
        cases ds with
        | nil => exact absurd rfl hne
        | cons d t => rfl
      rw [hfalse]
      simp only [Bool.false_eq_true, if_false, htw.1, htw.2]
      simp

theorem intShape_head {ip : List Char} (h : IntShape ip) :
    ∃ c t, ip = c :: t ∧ isDigit c = true := by
  rcases h with h0 | ⟨c, ds, rfl, hc, _⟩
  · exact ⟨'0', [], h0, by decide⟩
  · exact ⟨c, ds, rfl, digit19_digit hc⟩

theorem scanNumber_app {lit : List Char} (rest : List Char) (h : NumShape lit)
    (hr : DelimOk rest) : scanNumber (lit ++ rest) = some (lit, rest) := by
  obtain ⟨sg, ip, fp, ep, rfl, hsg, hip, hfp, hep⟩ := h
  have hafterint : ∀ c, (fp ++ (ep ++ rest)).head? = some c → isDigit c = false := by
    intro c hc
    rcases hfp with rfl | ⟨ds, rfl, _, _⟩
    · rcases hep with rfl | ⟨e, sg', ds', rfl, hE, _, _, _⟩
      · exact (hr c hc).1
      · simp at hc
        rcases hE with rfl | rfl <;> simp [← hc] <;> decide
    · simp at hc
      simp [← hc]
      decide
  have hafterfrac : ∀ c, (ep ++ rest).head? = some c → isDigit c = false := by
    intro c hc
    rcases hep with rfl | ⟨e, sg', ds', rfl, hE, _, _, _⟩
    · exact (hr c hc).1
    · simp at hc
      rcases hE with rfl | rfl <;> simp [← hc] <;> decide
  have hdot : fp = [] → ∀ c, (ep ++ rest).head? = some c → c ≠ '.' := by
    intro _ c hc
    rcases hep with rfl | ⟨e, sg', ds', rfl, hE, _, _, _⟩
    · exact (hr c hc).2.1
    · simp at hc
      rcases hE with rfl | rfl <;> simp [← hc]
  have hee : ep = [] → ∀ c, rest.head? = some c → c ≠ 'e' ∧ c ≠ 'E' := by
    intro _ c hc
    exact ⟨(hr c hc).2.2.1, (hr c hc).2.2.2⟩
  have hrd : ∀ c, rest.head? = some c → isDigit c = false := fun c hc => (hr c hc).1
  have hint : scanInt (ip ++ (fp ++ (ep ++ rest))) = some (ip, fp ++ (ep ++ rest)) :=
    scanInt_app _ hip hafterint
  have hfrac : scanFrac (fp ++ (ep ++ rest)) = (fp, ep ++ rest) :=
    scanFrac_app _ hfp hdot hafterfrac
  have hexp : scanExp (ep ++ rest) = (ep, rest) := scanExp_app _ hep hee hrd
  have hassoc : (sg ++ ip ++ fp ++ ep) ++ rest = sg ++ (ip ++ (fp ++ (ep ++ rest))) := by
    simp [List.append_assoc]
  rw [hassoc]
  have hsign : scanSign (sg ++ (ip ++ (fp ++ (ep ++ rest)))) =
      (sg, ip ++ (fp ++ (ep ++ rest))) := by
    rcases hsg with rfl | rfl
    · obtain ⟨c, t, rfl, hc⟩ := intShape_head hip
      simp only [List.nil_append, List.cons_append]
      exact scanSign_other _ (digit_ne hc (by decide))
    · rfl
  unfold scanNumber
  rw [hsign]
  simp only [hint, hfrac, hexp]

/-! ## Scanner phase lemmas: soundness of the split -/

theorem scanSign_split {cs sg r : List Char} (h : scanSign cs = (sg, r)) :
    SignShape sg ∧ cs = sg ++ r := by
  unfold scanSign at h
  split at h
  · cases h
    exact ⟨Or.inr rfl, rfl⟩
  · cases h
    exact ⟨Or.inl rfl, rfl⟩

theorem scanInt_split {cs ip r : List Char} (h : scanInt cs = some (ip, r)) :
    IntShape ip ∧ cs = ip ++ r := by
  unfold scanInt at h
  split at h
  · cases h
    exact ⟨Or.inl rfl, rfl⟩
  · rename_i c t heq
    split at h
    · cases h
      refine ⟨Or.inr ⟨c, t.takeWhile isDigit, rfl, by assumption, mem_takeWhile_digit t⟩, ?_⟩
      simp [List.takeWhile_append_dropWhile]
    · cases h
  · cases h

theorem scanFrac_split {cs fp r : List Char} (h : scanFrac cs = (fp, r)) :
    FracShape fp ∧ cs = fp ++ r := by
  unfold scanFrac at h
  split at h
  · rename_i t
    split at h
    · cases h
      exact ⟨Or.inl rfl, rfl⟩
    · rename_i hne
      cases h
      refine ⟨Or.inr ⟨t.takeWhile isDigit, rfl, ?_, mem_takeWhile_digit t⟩, ?_⟩
      · intro he
        rw [he] at hne
        exact hne rfl
      · simp [List.takeWhile_append_dropWhile]
  · cases h
    exact ⟨Or.inl rfl, rfl⟩

theorem scanExp_split {cs ep r : List Char} (h : scanExp cs = (ep, r)) :
    ExpShape ep ∧ cs = ep ++ r := by
  unfold scanExp at h
  split at h
  · rename_i c t
    split at h
    · rename_i hc
      have hE : c = 'e' ∨ c = 'E' := by
        rcases Bool.or_eq_true_iff.mp hc with h1 | h1
        · exact Or.inl (of_decide_eq_true h1)
        · exact Or.inr (of_decide_eq_true h1)
      split at h
      · rename_i r2
        split at h
        · cases h
          exact ⟨Or.inl rfl, rfl⟩
        · rename_i hne
          cases h
          refine ⟨Or.inr ⟨c, ['+'], r2.takeWhile isDigit, rfl, hE, Or.inr (Or.inl rfl),
            ?_, mem_takeWhile_digit r2⟩, ?_⟩
          · intro he
            rw [he] at hne
            exact hne rfl
          · simp [List.takeWhile_append_dropWhile]
      · rename_i r2
        split at h
        · cases h
          exact ⟨Or.inl rfl, rfl⟩
        · rename_i hne
          cases h
          refine ⟨Or.inr ⟨c, ['-'], r2.takeWhile isDigit, rfl, hE, Or.inr (Or.inr rfl),
            ?_, mem_takeWhile_digit r2⟩, ?_⟩
          · intro he
            rw [he] at hne
            exact hne rfl
          · simp [List.takeWhile_append_dropWhile]
      · split at h
        · cases h
          exact ⟨Or.inl rfl, rfl⟩
        · rename_i hne
          cases h
          refine ⟨Or.inr ⟨c, [], t.takeWhile isDigit, rfl, hE, Or.inl rfl,
            ?_, mem_takeWhile_digit t⟩, ?_⟩
          · intro he
            rw [he] at hne
            exact hne rfl
          · simp [List.takeWhile_append_dropWhile]
    · cases h
      exact ⟨Or.inl rfl, rfl⟩
  · cases h
    exact ⟨Or.inl rfl, rfl⟩

theorem scanNumber_split {cs lit rest : List Char}
    (h : scanNumber cs = some (lit, rest)) : NumShape lit ∧ cs = lit ++ rest := by
  unfold scanNumber at h
  rcases hss : scanSign cs with ⟨sg, r0⟩
  rw [hss] at h
  simp only at h
  rcases hsi : scanInt r0 with _ | ⟨ip, r1⟩
  · rw [hsi] at h
    cases h
  · rw [hsi] at h
    simp only at h
    rcases hsf : scanFrac r1 with ⟨fp, r2⟩
    rw [hsf] at h
    simp only at h
    rcases hse : scanExp r2 with ⟨ep, r3⟩
    rw [hse] at h
    simp only at h
    cases h
    obtain ⟨hsg, rfl⟩ := scanSign_split hss
    obtain ⟨hip, rfl⟩ := scanInt_split hsi
    obtain ⟨hfp, rfl⟩ := scanFrac_split hsf
    obtain ⟨hep, rfl⟩ := scanExp_split hse
    exact ⟨⟨sg, ip, fp, ep, rfl, hsg, hip, hfp, hep⟩, by simp [List.append_assoc]⟩

/-! ## String escape lemmas -/

theorem hexVal_hexDig {n : Nat} (h : n < 16) : hexVal (hexDig n) = some n := by
  interval_cases n <;> decide

theorem escapeChars_cons (c : Char) (t : List Char) :
    escapeChars (c :: t) = escapeChar c ++ escapeChars t := rfl

theorem parseStringBody_escape (l : List Char) (rest : List Char) :
    parseStringBody (escapeChars l ++ '"' :: rest) = some (l, rest) := by
  induction l with
  | nil =>
    show parseStringBody ('"' :: rest) = some ([], rest)
    rw [parseStringBody.eq_def]
    simp
  | cons c t ih =>
    rw [escapeChars_cons, List.append_assoc]
    by_cases h1 : c = '"'
    · subst h1
      show parseStringBody ('\\' :: '"' :: (escapeChars t ++ '"' :: rest)) = _
      simp [parseStringBody, escChar, ih]
    · by_cases h2 : c = '\\'
      · subst h2
        show parseStringBody ('\\' :: '\\' :: (escapeChars t ++ '"' :: rest)) = _
        simp [parseStringBody, escChar, ih]
      · by_cases h3 : c = '\n'
        · subst h3
          show parseStringBody ('\\' :: 'n' :: (escapeChars t ++ '"' :: rest)) = _
          simp [parseStringBody, escChar, ih]
        · by_cases h4 : c = '\t'
          · subst h4
            show parseStringBody ('\\' :: 't' :: (escapeChars t ++ '"' :: rest)) = _
            simp [parseStringBody, escChar, ih]
          · by_cases h5 : c = '\r'
            · subst h5
              show parseStringBody ('\\' :: 'r' :: (escapeChars t ++ '"' :: rest)) = _
              simp [parseStringBody, escChar, ih]
            · by_cases h6 : c = '\x08'
              · subst h6
                show parseStringBody ('\\' :: 'b' :: (escapeChars t ++ '"' :: rest)) = _
                simp [parseStringBody, escChar, ih]
              · by_cases h7 : c = '\x0c'
                · subst h7
                  show parseStringBody ('\\' :: 'f' :: (escapeChars t ++ '"' :: rest)) = _
                  simp [parseStringBody, escChar, ih]
                · by_cases h8 : c.toNat < 32
                  · have hesc : escapeChar c =
                        ['\\', 'u', '0', '0', hexDig (c.toNat / 16), hexDig (c.toNat % 16)] := by
                      simp [escapeChar, h1, h2, h3, h4, h5, h6, h7, h8]
                    rw [hesc]
                    show parseStringBody ('\\' :: 'u' :: '0' :: '0' :: hexDig (c.toNat / 16) ::
                      hexDig (c.toNat % 16) :: (escapeChars t ++ '"' :: rest)) = _
                    have hhi : hexVal (hexDig (c.toNat / 16)) = some (c.toNat / 16) :=
                      hexVal_hexDig (by omega)
                    have hlo : hexVal (hexDig (c.toNat % 16)) = some (c.toNat % 16) :=
                      hexVal_hexDig (by omega)
                    have h00 : hexVal '0' = some 0 := by decide
                    have hval : Char.ofNat c.toNat = c := Char.ofNat_toNat c
                    simp only [parseStringBody, h00, hhi, hlo, ih]
                    have hn : ((0 * 16 + 0) * 16 + c.toNat / 16) * 16 + c.toNat % 16 = c.toNat := by
                      omega
                    rw [hn]
                    have hlt : ¬ (55296 ≤ c.toNat) := by omega
                    simp [hlt, hval]
                  · have hesc : escapeChar c = [c] := by
                      simp [escapeChar, h1, h2, h3, h4, h5, h6, h7, h8]
                    rw [hesc]
                    show parseStringBody (c :: (escapeChars t ++ '"' :: rest)) = _
                    rw [parseStringBody.eq_def]
                    simp only [if_neg h1, if_neg h2, if_neg h8, ih]

/-! ## Dictionary building lemmas -/

theorem dictInsert_fresh (fs : List (String × Json)) (k : String) (v : Json)
    (h : k ∉ fs.map Prod.fst) : dictInsert fs k v = fs ++ [(k, v)] := by
  induction fs with
  | nil => rfl
  | cons p t ih =>
    obtain ⟨k0, v0⟩ := p
    simp only [List.map_cons, List.mem_cons] at h
    push_neg at h
    simp only [dictInsert, if_neg (Ne.symm h.1), List.cons_append]
    rw [ih h.2]

theorem dictInsert_keys (fs : List (String × Json)) (k : String) (v : Json) :
    (dictInsert fs k v).map Prod.fst =
      if k ∈ fs.map Prod.fst then fs.map Prod.fst else fs.map Prod.fst ++ [k] := by
  induction fs with
  | nil => rfl
  | cons p t ih =>
    obtain ⟨k0, v0⟩ := p
    by_cases hk : k0 = k
    · subst hk
      simp [dictInsert]
    · simp only [dictInsert, if_neg hk, List.map_cons, ih]
      by_cases hm : k ∈ t.map Prod.fst
      · simp [hm, Ne.symm hk]
      · simp [hm, Ne.symm hk]

theorem dictInsert_nodup (fs : List (String × Json)) (k : String) (v : Json)
    (h : (fs.map Prod.fst).Nodup) : ((dictInsert fs k v).map Prod.fst).Nodup := by
  rw [dictInsert_keys]
  by_cases hm : k ∈ fs.map Prod.fst
  · simpa [hm]
  · simp only [hm, if_false]
    refine List.Nodup.append h (List.nodup_singleton _) ?_
    intro a ha hb
    rw [List.mem_singleton] at hb
    subst hb
    exact hm ha

theorem dictInsert_forall (P : Json → Prop) :
    ∀ (fs : List (String × Json)) (k : String) (v : Json),
      (∀ p ∈ fs, P p.2) → P v → ∀ p ∈ dictInsert fs k v, P p.2 := by
  intro fs
  induction fs with
  | nil =>
    intro k v h1 h2 p hp
    rw [show dictInsert [] k v = [(k, v)] from rfl] at hp
    rw [List.mem_singleton] at hp
    subst hp
    exact h2
  | cons q t ih =>
    intro k v h1 h2 p hp
    obtain ⟨k0, v0⟩ := q
    by_cases hk : k0 = k
    · rw [show dictInsert ((k0, v0) :: t) k v = (k0, v) :: t by simp [dictInsert, hk]] at hp
      rcases List.mem_cons.mp hp with rfl | hp
      · exact h2
      · exact h1 p (List.mem_cons_of_mem _ hp)
    · rw [show dictInsert ((k0, v0) :: t) k v = (k0, v0) :: dictInsert t k v by
        simp [dictInsert, hk]] at hp
      rcases List.mem_cons.mp hp with rfl | hp
      · exact h1 (k0, v0) (by simp)
      · exact ih k v (fun q hq => h1 q (List.mem_cons_of_mem _ hq)) h2 p hp

theorem dictPairs_go_nodup (ps : List (String × Json)) :
    ∀ acc : List (String × Json), (acc.map Prod.fst).Nodup →
      ((ps.foldl (fun a p => dictInsert a p.1 p.2) acc).map Prod.fst).Nodup := by
  induction ps with
  | nil => intro acc h; simpa using h
  | cons p t ih =>
    intro acc h
    exact ih _ (dictInsert_nodup acc p.1 p.2 h)

theorem dictPairs_nodup (ps : List (String × Json)) :
    ((dictPairs ps).map Prod.fst).Nodup :=
  dictPairs_go_nodup ps [] (by simp)

theorem dictPairs_go_forall (P : Json → Prop) (ps : List (String × Json)) :
    ∀ acc : List (String × Json), (∀ p ∈ acc, P p.2) → (∀ p ∈ ps, P p.2) →
      ∀ p ∈ ps.foldl (fun a p => dictInsert a p.1 p.2) acc, P p.2 := by
  induction ps with
  | nil => intro acc ha _ p hp; exact ha p hp
  | cons q t ih =>
    intro acc ha hq p hp
    refine ih _ ?_ (fun r hr => hq r (List.mem_cons_of_mem _ hr)) p hp
    exact dictInsert_forall P acc q.1 q.2 ha (hq q (by simp))

theorem dictPairs_forall (P : Json → Prop) (ps : List (String × Json))
    (h : ∀ p ∈ ps, P p.2) : ∀ p ∈ dictPairs ps, P p.2 :=
  dictPairs_go_forall P ps [] (by simp) h

theorem dictPairs_go_eq (ps : List (String × Json)) :
    ∀ acc : List (String × Json), ((acc ++ ps).map Prod.fst).Nodup →
      ps.foldl (fun a p => dictInsert a p.1 p.2) acc = acc ++ ps := by
  induction ps with
  | nil => intro acc _; simp
  | cons q t ih =>
    intro acc h
    obtain ⟨k, v⟩ := q
    have hk : k ∉ acc.map Prod.fst := by
      intro hmem
      rw [List.map_append, List.nodup_append] at h
      exact h.2.2 hmem (by simp)
    show List.foldl _ (dictInsert acc k v) t = _
    rw [dictInsert_fresh acc k v hk]
    rw [ih (acc ++ [(k, v)]) (by simpa using h)]
    simp

/-- Decoded member lists with distinct keys pass through `dict(pairs)` unchanged. -/
theorem dictPairs_eq_self (ps : List (String × Json)) (h : (ps.map Prod.fst).Nodup) :
    dictPairs ps = ps :=
  dictPairs_go_eq ps [] (by simpa using h)

/-! ## Head and last character facts about the serializer output -/

theorem skipWs_cons_of {c : Char} (r : List Char) (h : jsonSpace c = false) :
    skipWs (c :: r) = c :: r := by
  simp [skipWs, List.dropWhile_cons, h]

theorem digit_not_space {c : Char} (h : isDigit c = true) :
    jsonSpace c = false ∧ pySpace c = false := by
  constructor
  · cases hj : jsonSpace c
    · rfl
    · exfalso
      simp [jsonSpace] at hj
      rcases hj with ((rfl | rfl) | rfl) | rfl <;> exact absurd h (by decide)
  · cases hj : pySpace c
    · rfl
    · exfalso
      simp [pySpace] at hj
      rcases hj with ((((rfl | rfl) | rfl) | rfl) | rfl) | rfl <;> exact absurd h (by decide)

/-- First characters a serialized value can have. -/
def headOk (c : Char) : Prop :=
  c = '\x7b' ∨ c = '[' ∨ c = '"' ∨ c = 't' ∨ c = 'f' ∨ c = 'n' ∨ c = '-' ∨ c = 'N' ∨
    c = 'I' ∨ isDigit c = true

/-- Last characters a serialized value can have. -/
def lastOk (c : Char) : Prop :=
  c = '\x7d' ∨ c = ']' ∨ c = '"' ∨ c = 'e' ∨ c = 'l' ∨ c = 'N' ∨ c = 'y' ∨ isDigit c = true

theorem headOk_facts {c : Char} (h : headOk c) :
    jsonSpace c = false ∧ pySpace c = false ∧ c ≠ ']' ∧ c ≠ '\x7d' ∧ c ≠ ',' ∧
      c ≠ '\x60' ∧ c ≠ ':' := by
  rcases h with rfl | rfl | rfl | rfl | rfl | rfl | rfl | rfl | rfl | hd
  · exact ⟨rfl, rfl, by decide, by decide, by decide, by decide, by decide⟩
  · exact ⟨rfl, rfl, by decide, by decide, by decide, by decide, by decide⟩
  · exact ⟨rfl, rfl, by decide, by decide, by decide, by decide, by decide⟩
  · exact ⟨rfl, rfl, by decide, by decide, by decide, by decide, by decide⟩
  · exact ⟨rfl, rfl, by decide, by decide, by decide, by decide, by decide⟩
  · exact ⟨rfl, rfl, by decide, by decide, by decide, by decide, by decide⟩
  · exact ⟨rfl, rfl, by decide, by decide, by decide, by decide, by decide⟩
  · exact ⟨rfl, rfl, by decide, by decide, by decide, by decide, by decide⟩
  · exact ⟨rfl, rfl, by decide, by decide, by decide, by decide, by decide⟩
  · refine ⟨(digit_not_space hd).1, (digit_not_space hd).2, digit_ne hd (by decide),
      digit_ne hd (by decide), digit_ne hd (by decide), digit_ne hd (by decide),
      digit_ne hd (by decide)⟩

theorem lastOk_facts {c : Char} (h : lastOk c) : pySpace c = false ∧ c ≠ '\x60' := by
  rcases h with rfl | rfl | rfl | rfl | rfl | rfl | rfl | hd
  · exact ⟨rfl, by decide⟩
  · exact ⟨rfl, by decide⟩
  · exact ⟨rfl, by decide⟩
  · exact ⟨rfl, by decide⟩
  · exact ⟨rfl, by decide⟩
  · exact ⟨rfl, by decide⟩
  · exact ⟨rfl, by decide⟩
  · exact ⟨(digit_not_space hd).2, digit_ne hd (by decide)⟩

theorem numShape_head {lit : List Char} (h : NumShape lit) :
    ∃ c t, lit = c :: t ∧ (c = '-' ∨ isDigit c = true) := by
  obtain ⟨sg, ip, fp, ep, rfl, hsg, hip, _, _⟩ := h
  rcases hsg with rfl | rfl
  · obtain ⟨c, t, rfl, hc⟩ := intShape_head hip
    exact ⟨c, t ++ fp ++ ep, by simp, Or.inr hc⟩
  · exact ⟨'-', ip ++ fp ++ ep, by simp, Or.inl rfl⟩

theorem getLast?_digits {ds : List Char} (hne : ds ≠ [])
    (hds : ∀ d ∈ ds, isDigit d = true) :
    ∃ c, ds.getLast? = some c ∧ isDigit c = true := by
  have h1 : ds.getLast?.isSome := by
    cases ds with
    | nil => exact absurd rfl hne
    | cons a t => simp [List.getLast?_isSome]
  obtain ⟨c, hc⟩ := Option.isSome_iff_exists.mp h1
  obtain ⟨hlen, heq⟩ := List.mem_getLast?_eq_getLast (show c ∈ ds.getLast? by simp [hc])
  refine ⟨c, hc, hds c ?_⟩
  rw [heq]
  exact List.getLast_mem hlen

theorem numShape_last {lit : List Char} (h : NumShape lit) :
    ∃ c, lit.getLast? = some c ∧ isDigit c = true := by
  obtain ⟨sg, ip, fp, ep, rfl, hsg, hip, hfp, hep⟩ := h
  rcases hep with rfl | ⟨e, sg', ds, rfl, _, _, hne, hds⟩
  · rcases hfp with rfl | ⟨ds, rfl, hne, hds⟩
    · rcases hip with rfl | ⟨c, ds, rfl, hc, hds⟩
      · refine ⟨'0', ?_, by decide⟩
        rcases hsg with rfl | rfl <;> simp
      · cases hds0 : ds.getLast? with
        | none =>
          have hds' : ds = [] := by
            cases ds with
            | nil => rfl
            | cons a t => simp at hds0
          subst hds'
          refine ⟨c, ?_, digit19_digit hc⟩
          rcases hsg with rfl | rfl <;> simp
        | some d =>
          have hdsne : ds ≠ [] := by
            intro hh
            subst hh
            simp at hds0
          obtain ⟨d', hd', hdig⟩ := getLast?_digits hdsne hds
          rw [hds0] at hd'
          cases hd'
          refine ⟨d, ?_, hdig⟩
          have hgl : (c :: ds).getLast? = some d := by
            rw [show c :: ds = [c] ++ ds from rfl,
              List.getLast?_append_of_ne_nil [c] hdsne, hds0]
          rcases hsg with rfl | rfl <;> simp [hgl]
    · obtain ⟨d, hd, hdig⟩ := getLast?_digits hne hds
      refine ⟨d, ?_, hdig⟩
      have hgl : ('.' :: ds).getLast? = some d := by
        rw [show '.' :: ds = ['.'] ++ ds from rfl,
          List.getLast?_append_of_ne_nil ['.'] hne, hd]
      have := List.getLast?_append_of_ne_nil (sg ++ ip) (show '.' :: ds ≠ [] by simp)
      simp only [List.append_nil, List.append_assoc]
      rw [List.getLast?_append_of_ne_nil sg (by simp), List.getLast?_append_of_ne_nil ip (by simp)]
      exact hgl
  · obtain ⟨d, hd, hdig⟩ := getLast?_digits hne hds
    refine ⟨d, ?_, hdig⟩
    have hgl : (e :: sg' ++ ds).getLast? = some d := by
      rw [show e :: sg' ++ ds = (e :: sg') ++ ds by simp,
        List.getLast?_append_of_ne_nil (e :: sg') hne, hd]
    simp only [List.append_assoc]
    rw [List.getLast?_append_of_ne_nil sg (by simp),
      List.getLast?_append_of_ne_nil ip (by simp),
      List.getLast?_append_of_ne_nil fp (by simp)]
    exact hgl

theorem stringMk_data (s : String) : String.mk s.data = s := rfl

theorem dumpsV_head {v : Json} (h : ValidJ v) :
    ∃ c t, dumpsV v = c :: t ∧ headOk c := by
  cases h with
  | null =>
    refine ⟨'n', ['u', 'l', 'l'], by simp [dumpsV], ?_⟩
    unfold headOk
    decide
  | bool b =>
    cases b
    · refine ⟨'f', ['a', 'l', 's', 'e'], by simp [dumpsV], ?_⟩
      unfold headOk
      decide
    · refine ⟨'t', ['r', 'u', 'e'], by simp [dumpsV], ?_⟩
      unfold headOk
      decide
  | num lit hsh =>
    rcases hsh with hsh | rfl | rfl | rfl
    · obtain ⟨c, t, hct, hc⟩ := numShape_head hsh
      refine ⟨c, t, by simp [dumpsV, hct], ?_⟩
      unfold headOk
      rcases hc with rfl | hd
      · tauto
      · tauto
    · refine ⟨'N', ['a', 'N'], by simp [dumpsV], ?_⟩
      unfold headOk
      decide
    · refine ⟨'I', ['n', 'f', 'i', 'n', 'i', 't', 'y'], by simp [dumpsV], ?_⟩
      unfold headOk
      decide
    · refine ⟨'-', ['I', 'n', 'f', 'i', 'n', 'i', 't', 'y'], by simp [dumpsV], ?_⟩
      unfold headOk
      decide
  | str s =>
    refine ⟨'"', escapeChars s.data ++ ['"'], by simp [dumpsV, dumpsString], ?_⟩
    unfold headOk
    decide
  | arr l hl =>
    refine ⟨'[', dumpsElems l ++ [']'], by simp [dumpsV], ?_⟩
    unfold headOk
    decide
  | obj m hnd hm =>
    refine ⟨'\x7b', dumpsMembers m ++ ['\x7d'], by simp [dumpsV], ?_⟩
    unfold headOk
    decide

theorem dumpsV_length_pos {v : Json} (h : ValidJ v) : 1 ≤ (dumpsV v).length := by
  obtain ⟨c, t, hct, _⟩ := dumpsV_head h
  simp [hct]

theorem dumpsV_last {v : Json} (h : ValidJ v) :
    ∃ c, (dumpsV v).getLast? = some c ∧ lastOk c := by
  cases h with
  | null =>
    refine ⟨'l', by simp [dumpsV], ?_⟩
    unfold lastOk
    decide
  | bool b =>
    cases b
    · refine ⟨'e', by simp [dumpsV], ?_⟩
      unfold lastOk
      decide
    · refine ⟨'e', by simp [dumpsV], ?_⟩
      unfold lastOk
      decide
  | num lit hsh =>
    rcases hsh with hsh | rfl | rfl | rfl
    · obtain ⟨c, hc, hd⟩ := numShape_last hsh
      refine ⟨c, by simp [dumpsV, hc], ?_⟩
      unfold lastOk
      tauto
    · refine ⟨'N', by simp [dumpsV], by unfold lastOk; decide⟩
    · refine ⟨'y', by simp [dumpsV], by unfold lastOk; decide⟩
    · refine ⟨'y', by simp [dumpsV], by unfold lastOk; decide⟩
  | str s =>
    refine ⟨'"', ?_, by unfold lastOk; decide⟩
    show ('"' :: escapeChars s.data ++ ['"']).getLast? = some '"'
    rw [show '"' :: escapeChars s.data ++ ['"'] = ('"' :: escapeChars s.data) ++ ['"'] by simp,
      List.getLast?_concat]
  | arr l hl =>
    refine ⟨']', ?_, by unfold lastOk; decide⟩
    show (dumpsV (Json.arr l)).getLast? = some ']'
    have : dumpsV (Json.arr l) = ('[' :: dumpsElems l) ++ [']'] := by simp [dumpsV]
    rw [this, List.getLast?_concat]
  | obj m hnd hm =>
    refine ⟨'\x7d', ?_, by unfold lastOk; decide⟩
    show (dumpsV (Json.obj m)).getLast? = some '\x7d'
    have : dumpsV (Json.obj m) = ('\x7b' :: dumpsMembers m) ++ ['\x7d'] := by simp [dumpsV]
    rw [this, List.getLast?_concat]

theorem dropWhile_head_false' (p : Char → Bool) (l : List Char)
    (h : ∀ c, l.head? = some c → p c = false) : l.dropWhile p = l := by
  cases l with
  | nil => rfl
  | cons c t => simp [List.dropWhile_cons, h c rfl]

theorem pyStripL_eq_self {l : List Char}
    (hh : ∀ c, l.head? = some c → pySpace c = false)
    (hl : ∀ c, l.getLast? = some c → pySpace c = false) : pyStripL l = l := by
  unfold pyStripL
  rw [dropWhile_head_false' pySpace l hh]
  rw [dropWhile_head_false' pySpace l.reverse (by
    intro c hc
    rw [List.head?_reverse] at hc
    exact hl c hc)]
  exact List.reverse_reverse l

/-! ## Decoder completeness on serialized output -/

/-- Completeness statement for one value. -/
def PVal (v : Json) : Prop :=
  ∀ (rest : List Char) (f : Nat), DelimOk rest → 2 * (dumpsV v).length ≤ f →
    parseF f PMode.value (dumpsV v ++ rest) = some (POut.val v, rest)

theorem delim_tailE (t : List Json) (rest : List Char) :
    DelimOk (dumpsTailE t ++ ']' :: rest) := by
  intro c hc
  cases t with
  | nil =>
    simp [dumpsTailE] at hc
    subst hc
    exact ⟨by decide, by decide, by decide, by decide⟩
  | cons w t' =>
    simp [dumpsTailE] at hc
    subst hc
    exact ⟨by decide, by decide, by decide, by decide⟩

theorem delim_tailM (m : List (String × Json)) (rest : List Char) :
    DelimOk (dumpsTailM m ++ '\x7d' :: rest) := by
  intro c hc
  cases m with
  | nil =>
    simp [dumpsTailM] at hc
    subst hc
    exact ⟨by decide, by decide, by decide, by decide⟩
  | cons p t' =>
    obtain ⟨k, v⟩ := p
    simp [dumpsTailM] at hc
    subst hc
    exact ⟨by decide, by decide, by decide, by decide⟩

theorem skip_tailE (t : List Json) (rest : List Char) :
    skipWs (dumpsTailE t ++ ']' :: rest) = dumpsTailE t ++ ']' :: rest := by
  cases t with
  | nil => exact skipWs_cons_of rest (by decide)
  | cons w t' =>
    show skipWs (',' :: (' ' :: dumpsV w ++ dumpsTailE t' ++ ']' :: rest)) = _
    rw [skipWs_cons_of _ (by decide)]
    simp [dumpsTailE]

theorem skip_tailM (m : List (String × Json)) (rest : List Char) :
    skipWs (dumpsTailM m ++ '\x7d' :: rest) = dumpsTailM m ++ '\x7d' :: rest := by
  cases m with
  | nil => exact skipWs_cons_of rest (by decide)
  | cons p t' =>
    obtain ⟨k, v⟩ := p
    show skipWs (',' :: (' ' :: dumpsString k ++ ':' :: ' ' :: dumpsV v ++ dumpsTailM t'
      ++ '\x7d' :: rest)) = _
    rw [skipWs_cons_of _ (by decide)]
    simp [dumpsTailM]

theorem skipWs_space (X : List Char) : skipWs (' ' :: X) = skipWs X := by
  have h : jsonSpace ' ' = true := by decide
  simp [skipWs, List.dropWhile_cons, h]

theorem skipWs_dumpsV {v : Json} (h : ValidJ v) (X : List Char) :
    skipWs (dumpsV v ++ X) = dumpsV v ++ X := by
  obtain ⟨c, t, hct, hok⟩ := dumpsV_head h
  rw [hct, List.cons_append]
  exact skipWs_cons_of _ (headOk_facts hok).1

theorem parseF_value_other {f : Nat} {c : Char} {X : List Char}
    (h1 : c ≠ '\x7b') (h2 : c ≠ '[') (h3 : c ≠ '"') (h4 : c ≠ 't') (h5 : c ≠ 'f')
    (h6 : c ≠ 'n') :
    parseF (f + 1) PMode.value (c :: X) =
      match scanNumber (c :: X) with
      | some (lit, rest) => some (POut.val (Json.num (String.mk lit)), rest)
      | none => parseConst (c :: X) := by
  show parseF (Nat.succ f) PMode.value (c :: X) = _
  simp only [parseF, if_neg h1, if_neg h2, if_neg h3, if_neg h4, if_neg h5, if_neg h6]

theorem parse_tailE : ∀ (t : List Json), (∀ w ∈ t, ValidJ w) → (∀ w ∈ t, PVal w) →
    ∀ (rest : List Char) (f : Nat), 2 * (dumpsTailE t).length + 2 ≤ f →
      parseF f PMode.elems1 (dumpsTailE t ++ ']' :: rest) = some (POut.elems t, rest) := by
  intro t
  induction t with
  | nil =>
    intro _ _ rest f hf
    obtain ⟨g, rfl⟩ : ∃ g, f = g + 1 := ⟨f - 1, by omega⟩
    show parseF (g + 1) PMode.elems1 (']' :: rest) = _
    simp [parseF]
  | cons w t' ih =>
    intro hv hp rest f hf
    have hvw := hv w (by simp)
    have hlw := dumpsV_length_pos hvw
    have hlen : (dumpsTailE (w :: t')).length =
        2 + (dumpsV w).length + (dumpsTailE t').length := by
      simp [dumpsTailE]
      omega
    obtain ⟨g, rfl⟩ : ∃ g, f = g + 1 := ⟨f - 1, by omega⟩
    have harr : dumpsTailE (w :: t') ++ ']' :: rest =
        ',' :: ' ' :: (dumpsV w ++ (dumpsTailE t' ++ ']' :: rest)) := by
      simp [dumpsTailE]
    rw [harr]
    have hsw : skipWs (' ' :: (dumpsV w ++ (dumpsTailE t' ++ ']' :: rest))) =
        dumpsV w ++ (dumpsTailE t' ++ ']' :: rest) := by
      rw [skipWs_space]
      exact skipWs_dumpsV hvw _
    have hval := hp w (by simp) (dumpsTailE t' ++ ']' :: rest) g (delim_tailE t' rest)
      (by omega)
    have hloop := ih (fun x hx => hv x (by simp [hx])) (fun x hx => hp x (by simp [hx]))
      rest g (by omega)
    have hsw2 := skip_tailE t' rest
    show parseF (Nat.succ g) PMode.elems1 _ = _
    simp [parseF, hsw, hval, hsw2, hloop]

theorem parse_tailM : ∀ (m : List (String × Json)), (∀ p ∈ m, ValidJ p.2) →
    (∀ p ∈ m, PVal p.2) →
    ∀ (rest : List Char) (f : Nat), 2 * (dumpsTailM m).length + 2 ≤ f →
      parseF f PMode.members1 (dumpsTailM m ++ '\x7d' :: rest) =
        some (POut.members m, rest) := by
  intro m
  induction m with
  | nil =>
    intro _ _ rest f hf
    obtain ⟨g, rfl⟩ : ∃ g, f = g + 1 := ⟨f - 1, by omega⟩
    show parseF (g + 1) PMode.members1 ('\x7d' :: rest) = _
    simp [parseF]
  | cons p t' ih =>
    obtain ⟨k, v⟩ := p
    intro hv hp rest f hf
    have hvv : ValidJ v := hv (k, v) (by simp)
    have hlv := dumpsV_length_pos hvv
    have hlen : (dumpsTailM ((k, v) :: t')).length =
        4 + (dumpsString k).length + (dumpsV v).length + (dumpsTailM t').length := by
      simp [dumpsTailM]
      omega
    obtain ⟨g, rfl⟩ : ∃ g, f = g + 1 := ⟨f - 1, by omega⟩
    have harr : dumpsTailM ((k, v) :: t') ++ '\x7d' :: rest =
        ',' :: ' ' :: '"' :: (escapeChars k.data ++ ('"' :: (':' :: (' ' ::
          (dumpsV v ++ (dumpsTailM t' ++ '\x7d' :: rest)))))) := by
      simp [dumpsTailM, dumpsString]
    rw [harr]
    have hsw1 : skipWs (' ' :: '"' :: (escapeChars k.data ++ ('"' :: (':' :: (' ' ::
        (dumpsV v ++ (dumpsTailM t' ++ '\x7d' :: rest))))))) =
        '"' :: (escapeChars k.data ++ ('"' :: (':' :: (' ' ::
          (dumpsV v ++ (dumpsTailM t' ++ '\x7d' :: rest)))))) := by
      rw [skipWs_space]
      exact skipWs_cons_of _ (by decide)
    have hkey := parseStringBody_escape k.data
      (':' :: (' ' :: (dumpsV v ++ (dumpsTailM t' ++ '\x7d' :: rest))))
    have hsw2 : skipWs (':' :: (' ' :: (dumpsV v ++ (dumpsTailM t' ++ '\x7d' :: rest)))) =
        ':' :: (' ' :: (dumpsV v ++ (dumpsTailM t' ++ '\x7d' :: rest))) :=
      skipWs_cons_of _ (by decide)
    have hsw3 : skipWs (' ' :: (dumpsV v ++ (dumpsTailM t' ++ '\x7d' :: rest))) =
        dumpsV v ++ (dumpsTailM t' ++ '\x7d' :: rest) := by
      rw [skipWs_space]
      exact skipWs_dumpsV hvv _
    have hpv : PVal v := hp (k, v) (by simp)
    have hval := hpv (dumpsTailM t' ++ '\x7d' :: rest) g (delim_tailM t' rest) (by omega)
    have hloop := ih (fun x hx => hv x (by simp [hx])) (fun x hx => hp x (by simp [hx]))
      rest g (by omega)
    have hsw4 := skip_tailM t' rest
    show parseF (Nat.succ g) PMode.members1 _ = _
    simp [parseF, hsw1, hkey, hsw2, hsw3, hval, hsw4, hloop, stringMk_data]

theorem parse_dumps_aux : ∀ (n : Nat) (v : Json), sizeOf v ≤ n → ValidJ v → PVal v := by
  intro n
  induction n with
  | zero =>
    intro v hsz _
    exfalso
    cases v <;> simp at hsz
  | succ n ihn =>
    intro v hsz hval rest f hd hf
    cases hval with
    | null =>
      have hlen : (dumpsV Json.null).length = 4 := by simp [dumpsV]
      obtain ⟨g, rfl⟩ : ∃ g, f = g + 1 := ⟨f - 1, by omega⟩
      have harr : dumpsV Json.null ++ rest = 'n' :: ('u' :: 'l' :: 'l' :: rest) := by
        simp [dumpsV]
      rw [harr]
      show parseF (Nat.succ g) PMode.value _ = _
      simp [parseF, List.isPrefixOf]
    | bool b =>
      cases b
      · have hlen : (dumpsV (Json.bool false)).length = 5 := by simp [dumpsV]
        obtain ⟨g, rfl⟩ : ∃ g, f = g + 1 := ⟨f - 1, by omega⟩
        have harr : dumpsV (Json.bool false) ++ rest =
            'f' :: ('a' :: 'l' :: 's' :: 'e' :: rest) := by simp [dumpsV]
        rw [harr]
        show parseF (Nat.succ g) PMode.value _ = _
        simp [parseF, List.isPrefixOf]
      · have hlen : (dumpsV (Json.bool true)).length = 4 := by simp [dumpsV]
        obtain ⟨g, rfl⟩ : ∃ g, f = g + 1 := ⟨f - 1, by omega⟩
        have harr : dumpsV (Json.bool true) ++ rest =
            't' :: ('r' :: 'u' :: 'e' :: rest) := by simp [dumpsV]
        rw [harr]
        show parseF (Nat.succ g) PMode.value _ = _
        simp [parseF, List.isPrefixOf]
    | str s =>
      have hlen : 1 ≤ (dumpsV (Json.str s)).length := dumpsV_length_pos (ValidJ.str s)
      obtain ⟨g, rfl⟩ : ∃ g, f = g + 1 := ⟨f - 1, by omega⟩
      have harr : dumpsV (Json.str s) ++ rest =
          '"' :: (escapeChars s.data ++ ('"' :: rest)) := by
        simp [dumpsV, dumpsString]
      rw [harr]
      show parseF (Nat.succ g) PMode.value _ = _
      simp [parseF, parseStringBody_escape s.data rest, stringMk_data]
    | num lit hsh =>
      rcases hsh with hsh | rfl | rfl | rfl
      rotate_left
      · have hlen : (dumpsV (Json.num "NaN")).length = 3 := by simp [dumpsV]
        obtain ⟨g, rfl⟩ : ∃ g, f = g + 1 := ⟨f - 1, by omega⟩
        have harr : dumpsV (Json.num "NaN") ++ rest = 'N' :: ('a' :: 'N' :: rest) := by
          simp [dumpsV]
        rw [harr]
        show parseF (Nat.succ g) PMode.value _ = _
        simp [parseF, scanNumber, scanSign, scanInt, isDigit19, parseConst, List.isPrefixOf]
      · have hlen : (dumpsV (Json.num "Infinity")).length = 8 := by simp [dumpsV]
        obtain ⟨g, rfl⟩ : ∃ g, f = g + 1 := ⟨f - 1, by omega⟩
        have harr : dumpsV (Json.num "Infinity") ++ rest =
            'I' :: ('n' :: 'f' :: 'i' :: 'n' :: 'i' :: 't' :: 'y' :: rest) := by
          simp [dumpsV]
        rw [harr]
        show parseF (Nat.succ g) PMode.value _ = _
        simp [parseF, scanNumber, scanSign, scanInt, isDigit19, parseConst, List.isPrefixOf]
      · have hlen : (dumpsV (Json.num "-Infinity")).length = 9 := by simp [dumpsV]
        obtain ⟨g, rfl⟩ : ∃ g, f = g + 1 := ⟨f - 1, by omega⟩
        have harr : dumpsV (Json.num "-Infinity") ++ rest =
            '-' :: ('I' :: 'n' :: 'f' :: 'i' :: 'n' :: 'i' :: 't' :: 'y' :: rest) := by
          simp [dumpsV]
        rw [harr]
        show parseF (Nat.succ g) PMode.value _ = _
        simp [parseF, scanNumber, scanSign, scanInt, isDigit19, parseConst, List.isPrefixOf]
      obtain ⟨c, t, hct, hc⟩ := numShape_head hsh
      have hlen : 1 ≤ (dumpsV (Json.num lit)).length :=
        dumpsV_length_pos (ValidJ.num lit (Or.inl hsh))
      obtain ⟨g, rfl⟩ : ∃ g, f = g + 1 := ⟨f - 1, by omega⟩
      have hfacts : c ≠ '\x7b' ∧ c ≠ '[' ∧ c ≠ '"' ∧ c ≠ 't' ∧ c ≠ 'f' ∧ c ≠ 'n' := by
        rcases hc with rfl | hdig
        · exact ⟨by decide, by decide, by decide, by decide, by decide, by decide⟩
        · exact ⟨digit_ne hdig (by decide), digit_ne hdig (by decide),
            digit_ne hdig (by decide), digit_ne hdig (by decide),
            digit_ne hdig (by decide), digit_ne hdig (by decide)⟩
      have harr : dumpsV (Json.num lit) ++ rest = c :: (t ++ rest) := by
        simp [dumpsV, hct]
      rw [harr]
      rw [parseF_value_other hfacts.1 hfacts.2.1 hfacts.2.2.1 hfacts.2.2.2.1
        hfacts.2.2.2.2.1 hfacts.2.2.2.2.2]
      have hscan := scanNumber_app rest hsh hd
      rw [hct] at hscan
      rw [List.cons_append] at hscan
      rw [hscan]
      simp [← hct, stringMk_data]
    | arr l hlv =>
      cases l with
      | nil =>
        have hlen : (dumpsV (Json.arr [])).length = 2 := by simp [dumpsV, dumpsElems]
        obtain ⟨g, rfl⟩ : ∃ g, f = g + 1 := ⟨f - 1, by omega⟩
        obtain ⟨g', rfl⟩ : ∃ g', g = g' + 1 := ⟨g - 1, by omega⟩
        have harr : dumpsV (Json.arr []) ++ rest = '[' :: (']' :: rest) := by
          simp [dumpsV, dumpsElems]
        rw [harr]
        show parseF (Nat.succ (g' + 1)) PMode.value _ = _
        have hsk : skipWs (']' :: rest) = ']' :: rest := skipWs_cons_of _ (by decide)
        simp [parseF, hsk]
      | cons w tl =>
        have hvw : ValidJ w := hlv w (by simp)
        have hszw : sizeOf w ≤ n := by
          have h1 : sizeOf w < sizeOf (w :: tl) := List.sizeOf_lt_of_mem (by simp)
          have h2 : sizeOf (Json.arr (w :: tl)) = 1 + sizeOf (w :: tl) := by simp
          omega
        have hIH : ∀ x ∈ w :: tl, PVal x := by
          intro x hx
          have hx1 : sizeOf x < sizeOf (w :: tl) := List.sizeOf_lt_of_mem hx
          have h2 : sizeOf (Json.arr (w :: tl)) = 1 + sizeOf (w :: tl) := by simp
          exact ihn x (by omega) (hlv x hx)
        have hlw := dumpsV_length_pos hvw
        have hlen : (dumpsV (Json.arr (w :: tl))).length =
            2 + (dumpsV w).length + (dumpsTailE tl).length := by
          simp [dumpsV, dumpsElems]
          omega
        obtain ⟨g, rfl⟩ : ∃ g, f = g + 1 := ⟨f - 1, by omega⟩
        obtain ⟨g', rfl⟩ : ∃ g', g = g' + 1 := ⟨g - 1, by omega⟩
        have harr : dumpsV (Json.arr (w :: tl)) ++ rest =
            '[' :: (dumpsV w ++ (dumpsTailE tl ++ ']' :: rest)) := by
          simp [dumpsV, dumpsElems]
        rw [harr]
        obtain ⟨c, tw, hctw, hok⟩ := dumpsV_head hvw
        have hsk : skipWs (dumpsV w ++ (dumpsTailE tl ++ ']' :: rest)) =
            dumpsV w ++ (dumpsTailE tl ++ ']' :: rest) := skipWs_dumpsV hvw _
        have hval := hIH w (by simp) (dumpsTailE tl ++ ']' :: rest) g'
          (delim_tailE tl rest) (by omega)
        have hloop := parse_tailE tl (fun x hx => hlv x (by simp [hx]))
          (fun x hx => hIH x (by simp [hx])) rest g' (by omega)
        have hsk2 := skip_tailE tl rest
        show parseF (Nat.succ (g' + 1)) PMode.value _ = _
        have hone : parseF (g' + 1) PMode.elems0 (dumpsV w ++ (dumpsTailE tl ++ ']' :: rest)) =
            some (POut.elems (w :: tl), rest) := by
          rw [hctw, List.cons_append]
          show parseF (Nat.succ g') PMode.elems0 _ = _
          have hne : c ≠ ']' := (headOk_facts hok).2.2.1
          have hback : c :: (tw ++ (dumpsTailE tl ++ ']' :: rest)) =
              dumpsV w ++ (dumpsTailE tl ++ ']' :: rest) := by
            rw [hctw, List.cons_append]
          simp only [parseF, if_neg hne]
          rw [hback]
          simp [hval, hsk2, hloop]
        conv_lhs => rw [parseF.eq_def]
        simp [hsk, hone]
    | obj m hnd hmv =>
      cases m with
      | nil =>
        have hlen : (dumpsV (Json.obj [])).length = 2 := by simp [dumpsV, dumpsMembers]
        obtain ⟨g, rfl⟩ : ∃ g, f = g + 1 := ⟨f - 1, by omega⟩
        obtain ⟨g', rfl⟩ : ∃ g', g = g' + 1 := ⟨g - 1, by omega⟩
        have harr : dumpsV (Json.obj []) ++ rest = '\x7b' :: ('\x7d' :: rest) := by
          simp [dumpsV, dumpsMembers]
        rw [harr]
        show parseF (Nat.succ (g' + 1)) PMode.value _ = _
        have hsk : skipWs ('\x7d' :: rest) = '\x7d' :: rest := skipWs_cons_of _ (by decide)
        simp [parseF, hsk, dictPairs]
      | cons p tl =>
        obtain ⟨k, v⟩ := p
        have hvv : ValidJ v := hmv (k, v) (by simp)
        have hIH : ∀ x ∈ (k, v) :: tl, PVal x.2 := by
          intro x hx
          have hx1 : sizeOf x < sizeOf ((k, v) :: tl) := List.sizeOf_lt_of_mem hx
          have hx2 : sizeOf x.2 < sizeOf x := by
            obtain ⟨a, b⟩ := x
            simp
          have h2 : sizeOf (Json.obj ((k, v) :: tl)) = 1 + sizeOf ((k, v) :: tl) := by simp
          exact ihn x.2 (by omega) (hmv x hx)
        have hpv : PVal v := hIH (k, v) (by simp)
        have hlv := dumpsV_length_pos hvv
        have hlen : (dumpsV (Json.obj ((k, v) :: tl))).length =
            6 + (escapeChars k.data).length + (dumpsV v).length + (dumpsTailM tl).length := by
          simp [dumpsV, dumpsMembers, dumpsString]
          omega
        obtain ⟨g, rfl⟩ : ∃ g, f = g + 1 := ⟨f - 1, by omega⟩
        obtain ⟨g', rfl⟩ : ∃ g', g = g' + 1 := ⟨g - 1, by omega⟩
        have harr : dumpsV (Json.obj ((k, v) :: tl)) ++ rest =
            '\x7b' :: ('"' :: (escapeChars k.data ++ ('"' :: (':' :: (' ' ::
              (dumpsV v ++ (dumpsTailM tl ++ '\x7d' :: rest))))))) := by
          simp [dumpsV, dumpsMembers, dumpsString]
        rw [harr]
        show parseF (Nat.succ (g' + 1)) PMode.value _ = _
        have hkey := parseStringBody_escape k.data
          (':' :: (' ' :: (dumpsV v ++ (dumpsTailM tl ++ '\x7d' :: rest))))
        have hsw2 : skipWs (':' :: (' ' :: (dumpsV v ++ (dumpsTailM tl ++ '\x7d' :: rest)))) =
            ':' :: (' ' :: (dumpsV v ++ (dumpsTailM tl ++ '\x7d' :: rest))) :=
          skipWs_cons_of _ (by decide)
        have hsw3 : skipWs (' ' :: (dumpsV v ++ (dumpsTailM tl ++ '\x7d' :: rest))) =
            dumpsV v ++ (dumpsTailM tl ++ '\x7d' :: rest) := by
          rw [skipWs_space]
          exact skipWs_dumpsV hvv _
        have hval := hpv (dumpsTailM tl ++ '\x7d' :: rest) g' (delim_tailM tl rest)
          (by omega)
        have hloop := parse_tailM tl (fun x hx => hmv x (by simp [hx]))
          (fun x hx => hIH x (by simp [hx])) rest g' (by omega)
        have hsw4 := skip_tailM tl rest
        have hsw1 : skipWs ('"' :: (escapeChars k.data ++ ('"' :: (':' :: (' ' ::
            (dumpsV v ++ (dumpsTailM tl ++ '\x7d' :: rest))))))) =
            '"' :: (escapeChars k.data ++ ('"' :: (':' :: (' ' ::
              (dumpsV v ++ (dumpsTailM tl ++ '\x7d' :: rest)))))) :=
          skipWs_cons_of _ (by decide)
        have hdp : dictPairs ((String.mk k.data, v) :: tl) = (k, v) :: tl := by
          rw [stringMk_data]
          exact dictPairs_eq_self _ hnd
        simp [parseF, hsw1, hkey, hsw2, hsw3, hval, hsw4, hloop, hdp]

/-- The decoder reads back exactly what the serializer wrote. -/
theorem parse_dumps {v : Json} (h : ValidJ v) : PVal v :=
  parse_dumps_aux (sizeOf v) v le_rfl h

/-! ## Decoder outputs are valid values -/

def POutValid : POut → Prop
  | .val v => ValidJ v
  | .elems l => ∀ v ∈ l, ValidJ v
  | .members m => ∀ p ∈ m, ValidJ p.2

theorem parseF_valid : ∀ (f : Nat) (mo : PMode) (cs : List Char) (out : POut)
    (rest : List Char), parseF f mo cs = some (out, rest) → POutValid out := by
  intro f
  induction f with
  | zero =>
    intro mo cs out rest h
    simp [parseF] at h
  | succ f ih =>
    intro mo cs out rest h
    cases mo with
    | value =>
      cases cs with
      | nil => simp [parseF] at h
      | cons c r =>
        simp only [parseF] at h
        by_cases h1 : c = '\x7b'
        · rw [if_pos h1] at h
          rcases hm : parseF f PMode.members0 (skipWs r) with _ | ⟨o, rest'⟩ <;>
            (try rw [hm] at h)
          · cases h
          · cases o with
            | members m =>
              rw [show (match (some (POut.members m, rest') : Option (POut × List Char)) with
                | some (POut.members m, rest) =>
                  some (POut.val (Json.obj (dictPairs m)), rest)
                | _ => none) = some (POut.val (Json.obj (dictPairs m)), rest') from rfl] at h
              cases h
              refine ValidJ.obj _ (dictPairs_nodup m) ?_
              exact dictPairs_forall ValidJ m (ih PMode.members0 (skipWs r) _ _ hm)
            | val v => cases h
            | elems l => cases h
        · rw [if_neg h1] at h
          by_cases h2 : c = '['
          · rw [if_pos h2] at h
            rcases hm : parseF f PMode.elems0 (skipWs r) with _ | ⟨o, rest'⟩ <;>
              (try rw [hm] at h)
            · cases h
            · cases o with
              | elems l =>
                rw [show (match (some (POut.elems l, rest') : Option (POut × List Char)) with
                  | some (POut.elems l, rest) => some (POut.val (Json.arr l), rest)
                  | _ => none) = some (POut.val (Json.arr l), rest') from rfl] at h
                cases h
                exact ValidJ.arr _ (ih PMode.elems0 (skipWs r) _ _ hm)
              | val v => cases h
              | members m => cases h
          · rw [if_neg h2] at h
            by_cases h3 : c = '"'
            · rw [if_pos h3] at h
              rcases hs : parseStringBody r with _ | ⟨cs1, rest'⟩ <;> (try rw [hs] at h)
              · cases h
              · cases h
                exact ValidJ.str _
            · rw [if_neg h3] at h
              by_cases h4 : c = 't'
              · rw [if_pos h4] at h
                split_ifs at h
                cases h
                exact ValidJ.bool _
              · rw [if_neg h4] at h
                by_cases h5 : c = 'f'
                · rw [if_pos h5] at h
                  split_ifs at h
                  cases h
                  exact ValidJ.bool _
                · rw [if_neg h5] at h
                  by_cases h6 : c = 'n'
                  · rw [if_pos h6] at h
                    split_ifs at h
                    cases h
                    exact ValidJ.null
                  · rw [if_neg h6] at h
                    rcases hs : scanNumber (c :: r) with _ | ⟨lit, rest'⟩ <;>
                      (try rw [hs] at h)
                    · have h2 : parseConst (c :: r) = some (out, rest) := h
                      unfold parseConst at h2
                      split_ifs at h2 <;> cases h2
                      · exact ValidJ.num _ (Or.inr (Or.inl rfl))
                      · exact ValidJ.num _ (Or.inr (Or.inr (Or.inl rfl)))
                      · exact ValidJ.num _ (Or.inr (Or.inr (Or.inr rfl)))
                    · cases h
                      exact ValidJ.num _ (Or.inl (scanNumber_split hs).1)
    | elems0 =>
      cases cs with
      | nil => simp [parseF] at h
      | cons c r =>
        simp only [parseF] at h
        split_ifs at h with h1
        · cases h
          intro v hv
          simp at hv
        · split at h
          · rename_i v rest' hm
            split at h
            · rename_i l r2 hm2
              cases h
              intro x hx
              rcases List.mem_cons.mp hx with rfl | hx
              · exact ih PMode.value (c :: r) _ _ hm
              · exact ih PMode.elems1 (skipWs rest') _ _ hm2 x hx
            · exact Option.noConfusion h
          · exact Option.noConfusion h
    | elems1 =>
      cases cs with
      | nil => simp [parseF] at h
      | cons c r =>
        simp only [parseF] at h
        split_ifs at h with h1 h2
        · cases h
          intro v hv
          simp at hv
        · split at h
          · rename_i v rest' hm
            split at h
            · rename_i l r2 hm2
              cases h
              intro x hx
              rcases List.mem_cons.mp hx with rfl | hx
              · exact ih PMode.value (skipWs r) _ _ hm
              · exact ih PMode.elems1 (skipWs rest') _ _ hm2 x hx
            · exact Option.noConfusion h
          · exact Option.noConfusion h
    | members0 =>
      cases cs with
      | nil => simp [parseF] at h
      | cons c r =>
        simp only [parseF] at h
        split_ifs at h with h1 h2
        · cases h
          intro p hp
          simp at hp
        · split at h
          · rename_i kcs r1 hs
            split at h
            · exact Option.noConfusion h
            · rename_i c2 r2 hsw
              split_ifs at h with hc2
              · split at h
                · rename_i v rest' hm
                  split at h
                  · rename_i m r3 hm2
                    cases h
                    intro p hp
                    rcases List.mem_cons.mp hp with rfl | hp
                    · exact ih PMode.value (skipWs r2) _ _ hm
                    · exact ih PMode.members1 (skipWs rest') _ _ hm2 p hp
                  · exact Option.noConfusion h
                · exact Option.noConfusion h
          · exact Option.noConfusion h
    | members1 =>
      cases cs with
      | nil => simp [parseF] at h
      | cons c r =>
        simp only [parseF] at h
        split_ifs at h with h1 h2
        · cases h
          intro p hp
          simp at hp
        · split at h
          · exact Option.noConfusion h
          · rename_i c1 r1 hsw0
            split_ifs at h with hc1
            · split at h
              · rename_i kcs r2 hs
                split at h
                · exact Option.noConfusion h
                · rename_i c2 r3 hsw
                  split_ifs at h with hc2
                  · split at h
                    · rename_i v rest' hm
                      split at h
                      · rename_i m r4 hm2
                        cases h
                        intro p hp
                        rcases List.mem_cons.mp hp with rfl | hp
                        · exact ih PMode.value (skipWs r3) _ _ hm
                        · exact ih PMode.members1 (skipWs rest') _ _ hm2 p hp
                      · exact Option.noConfusion h
                    · exact Option.noConfusion h
              · exact Option.noConfusion h

/-! ## Roundtrip at the `_parse_json` level -/

theorem loadsL_dumps {v : Json} (h : ValidJ v) : loadsL (dumpsV v) = some v := by
  have hsk : skipWs (dumpsV v) = dumpsV v := by
    have := skipWs_dumpsV h []
    simpa using this
  have hp := parse_dumps h [] (2 * (dumpsV v).length + 1)
    (fun c hc => by simp at hc) (by omega)
  rw [List.append_nil] at hp
  unfold loadsL
  simp only [hsk, hp]
  rfl

theorem loadsL_valid {l : List Char} {v : Json} (h : loadsL l = some v) : ValidJ v := by
  unfold loadsL at h
  simp only at h
  split at h
  · rename_i v' rest heq
    split_ifs at h
    cases h
    exact parseF_valid _ _ _ _ _ heq
  · exact Option.noConfusion h

theorem parse_json_valid {t : String} {v : Json} (h : parse_json t = some v) :
    ValidJ v := by
  unfold parse_json at h
  split_ifs at h
  · cases h
    exact ValidJ.obj [] (by simp) (by simp)
  · exact loadsL_valid h

theorem isPrefixOf_cons_ne {a c : Char} (X t : List Char) (h : c ≠ a) :
    (a :: X).isPrefixOf (c :: t) = false := by
  simp [List.isPrefixOf_cons₂]
  intro he
  exact absurd he.symm h

theorem isSuffixOf_ne_last {l : List Char} {c : Char} (hl : l.getLast? = some c)
    (h : c ≠ '\x60') : "```".data.isSuffixOf l = false := by
  show List.isSuffixOf _ _ = false
  unfold List.isSuffixOf
  cases hrev : l.reverse with
  | nil =>
    exfalso
    rw [← List.head?_reverse, hrev] at hl
    exact Option.noConfusion hl
  | cons c' t =>
    rw [← List.head?_reverse, hrev] at hl
    simp at hl
    subst hl
    show ("```".data.reverse).isPrefixOf (c' :: t) = false
    exact isPrefixOf_cons_ne _ _ h

theorem cleanFences_dumps {v : Json} (h : ValidJ v) :
    cleanFences (dumpsV v) = dumpsV v := by
  obtain ⟨c, tl, hct, hok⟩ := dumpsV_head h
  obtain ⟨cl, hcl, hlok⟩ := dumpsV_last h
  have hfacts := headOk_facts hok
  have hlfacts := lastOk_facts hlok
  have hstrip : pyStripL (dumpsV v) = dumpsV v := by
    refine pyStripL_eq_self ?_ ?_
    · intro d hd
      rw [hct] at hd
      simp at hd
      subst hd
      exact hfacts.2.1
    · intro d hd
      rw [hcl] at hd
      cases hd
      exact hlfacts.1
  have hpre1 : ("```json".data).isPrefixOf (dumpsV v) = false := by
    rw [hct]
    exact isPrefixOf_cons_ne _ _ hfacts.2.2.2.2.2.1
  have hpre2 : ("```".data).isPrefixOf (dumpsV v) = false := by
    rw [hct]
    exact isPrefixOf_cons_ne _ _ hfacts.2.2.2.2.2.1
  have hsuf : ("```".data).isSuffixOf (dumpsV v) = false := isSuffixOf_ne_last hcl hlfacts.2
  unfold cleanFences
  simp only [hstrip, hpre1, hpre2, hsuf, Bool.false_eq_true, if_false]

/-- Roundtrip: a value decoded by `_parse_json` is decoded back unchanged from
its `json.dumps` serialization. -/
theorem parse_json_dumps {v : Json} (h : ValidJ v) : parse_json (dumps v) = some v := by
  have hne : (dumps v).data ≠ [] := by
    show dumpsV v ≠ []
    obtain ⟨c, tl, hct, _⟩ := dumpsV_head h
    rw [hct]
    simp
  unfold parse_json
  rw [if_neg hne]
  show loadsL (cleanFences (dumpsV v)) = some v
  rw [cleanFences_dumps h]
  exact loadsL_dumps h

/-! ## Fence stripping equivalences -/

theorem head?_dropWhile_not (p : Char → Bool) (l : List Char) :
    ∀ c, (l.dropWhile p).head? = some c → p c = false := by
  induction l with
  | nil => intro c hc; simp at hc
  | cons a t ih =>
    intro c hc
    rw [List.dropWhile_cons] at hc
    split_ifs at hc with ha
    · exact ih c hc
    · simp at hc
      subst hc
      simpa using ha

theorem getLast?_dropWhile (p : Char → Bool) (l : List Char)
    (h : l.dropWhile p ≠ []) : (l.dropWhile p).getLast? = l.getLast? := by
  conv_rhs => rw [← List.takeWhile_append_dropWhile (p := p) (l := l)]
  rw [List.getLast?_append_of_ne_nil _ h]

theorem pyStripL_idem (l : List Char) : pyStripL (pyStripL l) = pyStripL l := by
  cases hD : pyStripL l with
  | nil => rfl
  | cons c t =>
    rw [← hD]
    apply pyStripL_eq_self
    · intro d hd
      unfold pyStripL at hd
      rw [List.head?_reverse] at hd
      have hne : (l.dropWhile pySpace).reverse.dropWhile pySpace ≠ [] := by
        intro hnil
        unfold pyStripL at hD
        rw [hnil] at hD
        simp at hD
      rw [getLast?_dropWhile pySpace _ hne, List.getLast?_reverse] at hd
      exact head?_dropWhile_not pySpace l d hd
    · intro d hd
      unfold pyStripL at hd
      rw [List.getLast?_reverse] at hd
      exact head?_dropWhile_not pySpace _ d hd

theorem pyStripL_pad (t : List Char) :
    pyStripL ('\n' :: (t ++ ['\n'])) = pyStripL t := by
  unfold pyStripL
  rw [List.dropWhile_cons]
  have hn : pySpace '\n' = true := by decide
  rw [if_pos (by simp [hn])]
  rw [List.dropWhile_append]
  cases hA : (t.dropWhile pySpace).isEmpty with
  | true =>
    simp only [if_pos]
    have : List.dropWhile pySpace ['\n'] = [] := by decide
    rw [this]
    rw [List.isEmpty_iff] at hA
    rw [hA]
  | false =>
    simp only [Bool.false_eq_true, if_false]
    rw [List.reverse_append]
    show (List.dropWhile pySpace ('\n' :: (t.dropWhile pySpace).reverse)).reverse = _
    rw [List.dropWhile_cons, if_pos (by simp [hn])]

theorem isPrefixOf_self_append (a r : List Char) : a.isPrefixOf (a ++ r) = true := by
  induction a with
  | nil => simp [List.isPrefixOf]
  | cons c t ih => simp [List.isPrefixOf_cons₂, ih]

theorem isSuffixOf_self_append (a b : List Char) : b.isSuffixOf (a ++ b) = true := by
  show List.isSuffixOf _ _ = true
  unfold List.isSuffixOf
  rw [List.reverse_append]
  exact isPrefixOf_self_append _ _

/-- Fenced wrapping of a model reply, with an optional language annotation. -/
def wrapFence (lang : String) (t : String) : String := "```" ++ lang ++ "\n" ++ t ++ "\n```"

theorem cleanFences_wrapJson (t : List Char) :
    cleanFences ("```json\n".data ++ (t ++ "\n```".data)) = pyStripL t := by
  have hform : "```json\n".data ++ (t ++ "\n```".data) =
      ('\x60' :: '\x60' :: '\x60' :: 'j' :: 's' :: 'o' :: 'n' :: '\n' :: t) ++
        ['\n', '\x60', '\x60', '\x60'] := by
    simp
  have hstrip : pyStripL ("```json\n".data ++ (t ++ "\n```".data)) =
      "```json\n".data ++ (t ++ "\n```".data) := by
    apply pyStripL_eq_self
    · intro d hd
      simp at hd
      subst hd
      decide
    · intro d hd
      rw [hform, List.getLast?_append_of_ne_nil _ (by simp)] at hd
      have : (['\n', '\x60', '\x60', '\x60'] : List Char).getLast? = some '\x60' := by decide
      rw [this] at hd
      cases hd
      decide
  have hpre1 : ("```json".data).isPrefixOf ("```json\n".data ++ (t ++ "\n```".data)) = true := by
    have : "```json\n".data ++ (t ++ "\n```".data) =
        "```json".data ++ ('\n' :: (t ++ "\n```".data)) := by simp
    rw [this]
    exact isPrefixOf_self_append _ _
  have hdrop : List.drop 7 ("```json\n".data ++ (t ++ "\n```".data)) =
      '\n' :: (t ++ "\n```".data) := rfl
  have hpre2 : ("```".data).isPrefixOf ('\n' :: (t ++ "\n```".data)) = false :=
    isPrefixOf_cons_ne _ _ (by decide)
  have hsufform : '\n' :: (t ++ "\n```".data) =
      ('\n' :: (t ++ ['\n'])) ++ "```".data := by simp
  have hsuf : ("```".data).isSuffixOf ('\n' :: (t ++ "\n```".data)) = true := by
    rw [hsufform]
    exact isSuffixOf_self_append _ _
  have htake : ('\n' :: (t ++ "\n```".data)).take
      (('\n' :: (t ++ "\n```".data)).length - 3) = '\n' :: (t ++ ['\n']) := by
    rw [hsufform]
    have hlen : (('\n' :: (t ++ ['\n'])) ++ "```".data).length - 3 =
        ('\n' :: (t ++ ['\n'])).length := by
      simp
    rw [hlen]
    exact List.take_left _ _
  simp only [cleanFences]
  rw [hstrip, hpre1]
  simp only [if_true]
  rw [hdrop, hpre2]
  simp only [Bool.false_eq_true, if_false]
  rw [hsuf]
  simp only [if_true]
  rw [htake]
  exact pyStripL_pad t

theorem cleanFences_wrapBare (t : List Char) :
    cleanFences ("```\n".data ++ (t ++ "\n```".data)) = pyStripL t := by
  have hform : "```\n".data ++ (t ++ "\n```".data) =
      ('\x60' :: '\x60' :: '\x60' :: '\n' :: t) ++ ['\n', '\x60', '\x60', '\x60'] := by
    simp
  have hstrip : pyStripL ("```\n".data ++ (t ++ "\n```".data)) =
      "```\n".data ++ (t ++ "\n```".data) := by
    apply pyStripL_eq_self
    · intro d hd
      simp at hd
      subst hd
      decide
    · intro d hd
      rw [hform, List.getLast?_append_of_ne_nil _ (by simp)] at hd
      have : (['\n', '\x60', '\x60', '\x60'] : List Char).getLast? = some '\x60' := by decide
      rw [this] at hd
      cases hd
      decide
  have hpre1 : ("```json".data).isPrefixOf ("```\n".data ++ (t ++ "\n```".data)) = false := by
    show List.isPrefixOf _ _ = false
    simp [List.isPrefixOf]
  have hpre2 : ("```".data).isPrefixOf ("```\n".data ++ (t ++ "\n```".data)) = true := by
    have : "```\n".data ++ (t ++ "\n```".data) =
        "```".data ++ ('\n' :: (t ++ "\n```".data)) := by simp
    rw [this]
    exact isPrefixOf_self_append _ _
  have hdrop : List.drop 3 ("```\n".data ++ (t ++ "\n```".data)) =
      '\n' :: (t ++ "\n```".data) := rfl
  have hsufform : '\n' :: (t ++ "\n```".data) =
      ('\n' :: (t ++ ['\n'])) ++ "```".data := by simp
  have hsuf : ("```".data).isSuffixOf ('\n' :: (t ++ "\n```".data)) = true := by
    rw [hsufform]
    exact isSuffixOf_self_append _ _
  have htake : ('\n' :: (t ++ "\n```".data)).take
      (('\n' :: (t ++ "\n```".data)).length - 3) = '\n' :: (t ++ ['\n']) := by
    rw [hsufform]
    have hlen : (('\n' :: (t ++ ['\n'])) ++ "```".data).length - 3 =
        ('\n' :: (t ++ ['\n'])).length := by
      simp
    rw [hlen]
    exact List.take_left _ _
  simp only [cleanFences]
  rw [hstrip, hpre1]
  simp only [Bool.false_eq_true, if_false]
  rw [hpre2]
  simp only [if_true]
  rw [hdrop]
  rw [hsuf]
  simp only [if_true]
  rw [htake]
  exact pyStripL_pad t

theorem prefix_json_of_prefix_fence {l : List Char}
    (h : ("```".data).isPrefixOf l = false) :
    ("```json".data).isPrefixOf l = false := by
  by_contra hc
  rw [Bool.not_eq_false, List.isPrefixOf_iff_prefix] at hc
  rw [← Bool.not_eq_true, List.isPrefixOf_iff_prefix] at h
  exact h (List.IsPrefix.trans ⟨"json".data, rfl⟩ hc)

theorem cleanFences_nofence {l : List Char}
    (h2 : ("```".data).isPrefixOf (pyStripL l) = false)
    (h3 : ("```".data).isSuffixOf (pyStripL l) = false) :
    cleanFences l = pyStripL l := by
  have h1 := prefix_json_of_prefix_fence h2
  simp only [cleanFences, h1, h2, h3, Bool.false_eq_true, if_false]
  exact pyStripL_idem l

/-- C7: the structured-response extractor `_parse_json` is idempotent through
serialization: whenever it succeeds on a raw text `x` and returns structure
`v`, serializing `v` back to text with `json.dumps` and extracting again
succeeds and returns the very same structure `v`. -/
theorem extract_idempotent (x : String) (v : Json) (h : parse_json x = some v) :
    parse_json (dumps v) = some v :=
  parse_json_dumps (parse_json_valid h)

theorem extract_idempotent_witness :
    parse_json "\x7b\"a\": 1\x7d" = some (Json.obj [("a", Json.num "1")]) ∧
    parse_json (dumps (Json.obj [("a", Json.num "1")])) =
      some (Json.obj [("a", Json.num "1")]) :=
  ⟨by rfl, extract_idempotent "\x7b\"a\": 1\x7d" (Json.obj [("a", Json.num "1")]) (by rfl)⟩

/-- C8 counterexample: wrapping valid inner text in a fenced block whose
language annotation is `js` makes `_parse_json` raise (`none`), while the
unwrapped inner text extracts fine — the code only strips a `json`
annotation, so the claim fails for other annotations. -/
theorem extract_fence_counterexample :
    parse_json (wrapFence "js" "\x7b\"a\": 1\x7d") = none ∧
    parse_json "\x7b\"a\": 1\x7d" = some (Json.obj [("a", Json.num "1")]) := by
  exact ⟨by rfl, by rfl⟩

/-- C8 (amended): for every nonempty inner text that does not itself begin
or end, after stripping, with a fence marker, extraction from the fenced
wrapping — with the `json` language annotation or with no annotation —
returns the same structure as extraction from the unwrapped inner text. -/
theorem extract_fence_invariant (t : String) (hne : t.data ≠ [])
    (h2 : ("```".data).isPrefixOf (pyStripL t.data) = false)
    (h3 : ("```".data).isSuffixOf (pyStripL t.data) = false) :
    parse_json (wrapFence "json" t) = parse_json t ∧
    parse_json (wrapFence "" t) = parse_json t := by
  have hwj : (wrapFence "json" t).data = "```json\n".data ++ (t.data ++ "\n```".data) := rfl
  have hwb : (wrapFence "" t).data = "```\n".data ++ (t.data ++ "\n```".data) := rfl
  have hnij : "```json\n".data ++ (t.data ++ "\n```".data) ≠ ([] : List Char) :=
    List.cons_ne_nil _ _
  have hnib : "```\n".data ++ (t.data ++ "\n```".data) ≠ ([] : List Char) :=
    List.cons_ne_nil _ _
  constructor
  · unfold parse_json
    rw [hwj, if_neg hnij, if_neg hne, cleanFences_wrapJson, cleanFences_nofence h2 h3]
  · unfold parse_json
    rw [hwb, if_neg hnib, if_neg hne, cleanFences_wrapBare, cleanFences_nofence h2 h3]

theorem extract_fence_invariant_witness :
    ("\x7b\"a\": 1\x7d" : String).data ≠ [] ∧
    ("```".data).isPrefixOf (pyStripL ("\x7b\"a\": 1\x7d" : String).data) = false ∧
    ("```".data).isSuffixOf (pyStripL ("\x7b\"a\": 1\x7d" : String).data) = false ∧
    (parse_json (wrapFence "json" "\x7b\"a\": 1\x7d") = parse_json "\x7b\"a\": 1\x7d" ∧
      parse_json (wrapFence "" "\x7b\"a\": 1\x7d") = parse_json "\x7b\"a\": 1\x7d") :=
  ⟨by decide, by rfl, by rfl,
    extract_fence_invariant "\x7b\"a\": 1\x7d" (by decide) (by rfl) (by rfl)⟩

/-! ## Model of `DistillationPipeline._extract_urls`

`re.findall` of `https?://[^\s<>"\x27)\]]*` scans left to right for a
non-overlapping match: at each position the literal prefix `https://` or
`http://` must match (the two are mutually exclusive), then the greedy tail
takes every character outside the excluded class.  `list(set(urls))` is
modelled as first-occurrence de-duplication: within one interpreter session
the set order is a fixed function of the inserted strings, and the model
fixes that function canonically. -/

/-- Characters the URL regex tail accepts: everything but whitespace and
the six excluded delimiters (39 is the apostrophe). -/
def urlChar (c : Char) : Bool :=
  !(pySpace c) && !(c == '<' || c == '>' || c == '"' || c.toNat == 39 || c == ')' || c == ']')

/-- The `re.findall` scan, fuelled (each step consumes at least one
character, so `length + 1` fuel is enough). -/
def scanUrls : Nat → List Char → List String
  | 0, _ => []
  | Nat.succ f, cs =>
    if "https://".data.isPrefixOf cs then
      String.mk ("https://".data ++ (cs.drop 8).takeWhile urlChar) ::
        scanUrls f ((cs.drop 8).dropWhile urlChar)
    else if "http://".data.isPrefixOf cs then
      String.mk ("http://".data ++ (cs.drop 7).takeWhile urlChar) ::
        scanUrls f ((cs.drop 7).dropWhile urlChar)
    else
      match cs with
      | [] => []
      | _ :: r => scanUrls f r

/-- Model of `list(set(urls))`: keep the first occurrence of each string. -/
def listSet (l : List String) : List String :=
  l.foldl (fun acc s => if s ∈ acc then acc else acc ++ [s]) []

/-- Model of `DistillationPipeline._extract_urls` (lines 589-593). -/
def extract_urls (s : String) : List String :=
  listSet (scanUrls (s.data.length + 1) s.data)

/-! ## Model of the gateway (`AIService`) and the pipeline environment

Prompts and message payloads never influence control flow, so they are
elided; a run's model replies are indexed by the order of the HTTP
round-trips the run makes.  `configured` is `settings.ai_configured`;
`resolve` abstracts `_image_to_base64` succeeding on a path. -/

structure Gateway where
  configured : Bool
  responses : Nat → Option String

structure Env where
  gw : Gateway
  resolve : String → Bool

/-- Model of `AIService._call_api` (lines 33-62): when unconfigured it
returns `None` without an HTTP round-trip; an HTTP failure is a `none`
entry in `responses`.  The counter counts `_call_api` invocations — the
Model Gateway calls the claims speak about. -/
def callApi (e : Env) (n : Nat) : Option String × Nat :=
  if e.gw.configured then (e.gw.responses n, n + 1) else (none, n + 1)

/-- Model of `AIService.analyze_image`: unconfigured, or no image loads,
gives `None` with no `_call_api` invocation; otherwise one call. -/
def analyzeImage (e : Env) (paths : List String) (n : Nat) : Option String × Nat :=
  if e.gw.configured then
    if paths.any e.resolve then callApi e n else (none, n)
  else (none, n)

/-! ## Model of `DistillationPipeline` -/

/-- A one-key error dict, as the short-circuit returns build them. -/
def errDict (m : String) : Json := Json.obj [("error", Json.str m)]

/-- The parse-failure dict of `_simple_distill` (lines 205-214).  The
source's error value interpolates the exception text; only its truthiness
is ever used, so the model keeps the fixed prefix. -/
def parseFailDict (actual : String) : Json :=
  Json.obj [("title", Json.str (pyTake actual 80)),
    ("summary", Json.str (pyTake actual 300)),
    ("key_points", Json.arr []), ("tags", Json.arr []),
    ("category", Json.str "未分类"), ("difficulty", Json.str "中级"),
    ("action_items", Json.arr []),
    ("error", Json.str "解析失败")]

/-- `_simple_distill` from the point where the combined content is known:
the no-content short circuit, then one gateway call and the reply
handling. -/
def simpleCore (e : Env) (actual : String) (m : Nat) : Json × Nat :=
  if actual = "" ∨ (pyStrip actual).length < 10 then
    (errDict "没有有效内容", m)
  else
    match (callApi e m).1 with
    | none => (errDict "AI 未返回结果", (callApi e m).2)
    | some r =>
      if r = "" then (errDict "AI 未返回结果", (callApi e m).2)
      else match parse_json r with
        | some v => (v, (callApi e m).2)
        | none => (parseFailDict actual, (callApi e m).2)

/-- Model of `DistillationPipeline._simple_distill` (lines 150-214). -/
def simpleDistill (e : Env) (content : String) (images : List String) (n : Nat) :
    Json × Nat :=
  let p1 := if images.isEmpty then ((none : Option String), n) else analyzeImage e images n
  let actual := match p1.1 with
    | some it =>
      if it ≠ "" then (if content ≠ "" then it ++ "\n\n" ++ content else it) else content
    | none => content
  simpleCore e actual p1.2

/-- Python `[:n]` works on a string or a list and raises `TypeError` on the
other decoded values. -/
def sliceable : Json → Bool
  | Json.str _ => true
  | Json.arr _ => true
  | _ => false

def isStrJ : Json → Bool
  | Json.str _ => true
  | _ => false

/-- `", ".join(x[:5])` succeeds on a string (its items are 1-character
strings) and on a list whose first five elements are all strings. -/
def joinOk5 : Json → Bool
  | Json.str _ => true
  | Json.arr l => (l.take 5).all isStrJ
  | _ => false

/-- The fast path of `run` (lines 70-75) returns early exactly when the
simple result is a nonempty dict, its `error` entry is falsy, and the
notification f-string raises nothing: `result.get('title','')[:50]` needs a
sliceable title and `', '.join(result.get('tags',[])[:5])` a joinable tag
list.  A non-dict result either is falsy or makes `.get` raise, and every
failure here falls through to the staged pipeline. -/
def fastOk (v : Json) : Bool :=
  match v with
  | Json.obj fs =>
    !fs.isEmpty && !(jsonTruthy (jGetD (Json.obj fs) "error" Json.null)) &&
      sliceable (jGetD (Json.obj fs) "title" (Json.str "")) &&
      joinOk5 (jGetD (Json.obj fs) "tags" (Json.arr []))
  | _ => false

/-- The heuristic fallback of `_stage_extract` (lines 266-275). -/
def extractFallback (actual : String) : Json :=
  Json.obj [("title", Json.str (pyTake actual 100)),
    ("raw_summary", Json.str (pyTake actual 500)),
    ("detected_urls", Json.arr ((extract_urls actual).map Json.str)),
    ("detected_names", Json.arr []),
    ("content_language", Json.str "未知")]

/-- Model of `DistillationPipeline._stage_extract` (lines 216-275).  A
`None` reply makes `_parse_json` return `{}` without raising, so the
heuristic fallback is reached only when the reply text itself fails to
parse. -/
def stageExtract (e : Env) (content : String) (images : List String) (n : Nat) :
    Json × Nat :=
  let p1 := if images.isEmpty then ((none : Option String), n) else analyzeImage e images n
  let actual := match p1.1 with
    | some it =>
      if it ≠ "" then
        (if content ≠ "" then "[图片内容]\n" ++ it ++ "\n\n[文字内容]\n" ++ content
         else "[图片内容]\n" ++ it)
      else content
    | none => content
  if actual = "" ∨ (pyStrip actual).length < 10 then
    (errDict "没有有效内容可提取", p1.2)
  else
    match parseJsonOpt (callApi e p1.2).1 with
    | some v => (v, (callApi e p1.2).2)
    | none => (extractFallback actual, (callApi e p1.2).2)

def analyzeFallback : Json :=
  Json.obj [("content_type", Json.str "未知"), ("domain", Json.str "未知"),
    ("tech_stack", Json.arr []), ("complexity_level", Json.str "中级")]

/-- Model of `DistillationPipeline._stage_analyze` (lines 277-323); the
`extraction` argument only feeds the prompt. -/
def stageAnalyze (e : Env) (n : Nat) : Json × Nat :=
  match parseJsonOpt (callApi e n).1 with
  | some v => (v, (callApi e n).2)
  | none => (analyzeFallback, (callApi e n).2)

def searchFallback (extraction : Json) : Json :=
  Json.obj [("found_urls", jGetD extraction "detected_urls" (Json.arr [])),
    ("install_commands", Json.obj []), ("quick_start", Json.str "")]

/-- Model of `DistillationPipeline._stage_search` (lines 325-391): building
the context dict calls `.get` on `extraction` and `analysis`, which raises
(`Except.error`) when either is not a dict, before any gateway call. -/
def stageSearch (e : Env) (extraction analysis : Json) (n : Nat) :
    Except Unit (Json × Nat) :=
  if isObj extraction && isObj analysis then
    match parseJsonOpt (callApi e n).1 with
    | some v => Except.ok (v, (callApi e n).2)
    | none => Except.ok (searchFallback extraction, (callApi e n).2)
  else Except.error ()

def verifyFallback : Json :=
  Json.obj [("confidence", Json.num "0.5"), ("verified_items", Json.arr []),
    ("corrections", Json.arr []),
    ("warnings", Json.arr [Json.str "验证过程出现异常"])]

/-- Model of `DistillationPipeline._stage_verify` (lines 393-454): the
inputs are only serialized into the prompt, so nothing raises. -/
def stageVerify (e : Env) (n : Nat) : Json × Nat :=
  match parseJsonOpt (callApi e n).1 with
  | some v => (v, (callApi e n).2)
  | none => (verifyFallback, (callApi e n).2)

/-- The except-branch card of `_stage_synthesize` (lines 562-571); `.get`
on a non-dict `extraction` or `analysis` raises out of the handler. -/
def smallCard (extraction analysis : Json) : Except Unit Json :=
  if isObj extraction && isObj analysis then
    Except.ok (Json.obj [
      ("title", jGetD extraction "title" (Json.str "处理失败")),
      ("summary", jGetD extraction "raw_summary" (Json.str "")),
      ("key_points", Json.arr []),
      ("tags", jGetD analysis "tech_stack" (Json.arr [])),
      ("category", jGetD analysis "domain" (Json.str "未分类")),
      ("difficulty", jGetD analysis "complexity_level" (Json.str "中级")),
      ("action_items", Json.arr [])])
  else Except.error ()

/-- The full card dict of `_stage_synthesize` (lines 540-560), with the
already-evaluated `repo_url` entry passed in.  Python evaluates every
`.get` default eagerly, so each `extraction.get`/`analysis.get` runs even
when `parsed` has the key. -/
def bigCardObj (parsed extraction analysis repo : Json) : Json :=
  Json.obj [
    ("title", jGetD parsed "title" (jGetD extraction "title" (Json.str "未知"))),
    ("summary", jGetD parsed "summary" (jGetD extraction "raw_summary" (Json.str ""))),
    ("key_points", jGetD parsed "key_points" (Json.arr [])),
    ("tags", jGetD parsed "tags" (Json.arr [])),
    ("category", jGetD parsed "category" (jGetD analysis "domain" (Json.str "未分类"))),
    ("difficulty", jGetD parsed "difficulty" (jGetD analysis "complexity_level" (Json.str "中级"))),
    ("action_items", jGetD parsed "action_items" (Json.arr [])),
    ("usage_example", jGetN parsed "usage_example"),
    ("deployment_guide", jGetN parsed "deployment_guide"),
    ("is_open_source", jGetD parsed "is_open_source" (Json.bool false)),
    ("repo_url", repo),
    ("official_docs", jGetN parsed "official_docs"),
    ("quick_reference", jGetN parsed "quick_reference"),
    ("related_topics", jGetD parsed "related_topics" (Json.arr [])),
    ("learning_resources", jGetD parsed "learning_resources" (Json.arr [])),
    ("pros_cons", jGetN parsed "pros_cons"),
    ("best_practices", jGetD parsed "best_practices" (Json.arr [])),
    ("common_mistakes", jGetD parsed "common_mistakes" (Json.arr []))]

/-- The try-branch of `_stage_synthesize`: raises when a `.get` receiver is
not a dict; `parsed.get("repo_url") or enriched.get(...)` short-circuits,
so a truthy parsed repo URL spares `enriched` the `.get`. -/
def bigCard (parsed extraction analysis enriched : Json) : Except Unit Json :=
  if isObj parsed && isObj extraction && isObj analysis then
    if jsonTruthy (jGetN parsed "repo_url") then
      Except.ok (bigCardObj parsed extraction analysis (jGetN parsed "repo_url"))
    else if isObj enriched then
      Except.ok (bigCardObj parsed extraction analysis (jGetN enriched "inferred_github_url"))
    else Except.error ()
  else Except.error ()

/-- Model of `DistillationPipeline._stage_synthesize` (lines 456-571): one
gateway call, then the full card, falling back to the small card when the
reply fails to parse or the full dict raises; a raise out of the small card
propagates. -/
def stageSynthesize (e : Env) (extraction analysis enriched : Json) (n : Nat) :
    Except Unit Json × Nat :=
  match parseJsonOpt (callApi e n).1 with
  | none => (smallCard extraction analysis, (callApi e n).2)
  | some parsed =>
    match bigCard parsed extraction analysis enriched with
    | Except.ok c => (Except.ok c, (callApi e n).2)
    | Except.error _ => (smallCard extraction analysis, (callApi e n).2)

/-- Substring test, modelling Python's `needle in hay` on strings. -/
def listHas (needle : List Char) : List Char → Bool
  | [] => needle.isEmpty
  | c :: r => needle.isPrefixOf (c :: r) || listHas needle r

/-- Whether a decoded value equals the string `已验证` (Python `==` between
the tag literal and a decoded value holds only for that string). -/
def isVerStr : Json → Bool
  | Json.str s => s == "已验证"
  | _ => false

/-- Python `"已验证" in tags` / `tags.append` receiver admissibility:
membership works on a list (equality only holds against equal strings), a
string (substring) or a dict (key); other values raise `TypeError`. -/
def tagIn (tags : Json) : Except Unit Bool :=
  match tags with
  | Json.arr l => Except.ok (l.any isVerStr)
  | Json.str s => Except.ok (listHas "已验证".data s.data)
  | Json.obj fs => Except.ok (fs.any (fun p => p.1 == "已验证"))
  | _ => Except.error ()

/-- The verified-tag block of `run` (lines 121-125): looks up the tags,
appends `已验证` when the membership test says absent — which needs a list,
since only lists have `.append` — and writes the entry back. -/
def applyVerifiedTag (final : Json) : Except Unit Json :=
  match tagIn (jGetD final "tags" (Json.arr [])) with
  | Except.error _ => Except.error ()
  | Except.ok true =>
    match final with
    | Json.obj fs => Except.ok (Json.obj (jSet fs "tags" (jGetD final "tags" (Json.arr []))))
    | _ => Except.error ()
  | Except.ok false =>
    match jGetD final "tags" (Json.arr []), final with
    | Json.arr l, Json.obj fs =>
      Except.ok (Json.obj (jSet fs "tags" (Json.arr (l ++ [Json.str "已验证"]))))
    | _, _ => Except.error ()

def pow10 : Nat → Nat
  | 0 => 1
  | n + 1 => 10 * pow10 n

/-- Whether `±m·10^e ≥ 7/10`: a positive value is cross-multiplied by
`10^(1-e)` or `10^(e+1)` into the integers; a negative or zero value is
below `7/10` outright. -/
def geSevenTenths (neg : Bool) (m : Nat) (e : Int) : Bool :=
  !neg && (if 0 ≤ e + 1 then 7 ≤ m * pow10 (e + 1).toNat
           else 7 * pow10 (-(e + 1)).toNat ≤ m)

/-- Python `confidence >= 0.7` on a decoded value: numbers compare
numerically (`nan >= 0.7` is false, `inf >= 0.7` true, `-inf >= 0.7` false),
booleans coerce to 0/1, everything else raises `TypeError`. -/
def jGE7 (confidence : Json) : Except Unit Bool :=
  match confidence with
  | Json.num lit =>
    if lit = "NaN" then Except.ok false
    else if lit = "Infinity" then Except.ok true
    else if lit = "-Infinity" then Except.ok false
    else
      match litParts lit.data with
      | (neg, m, e) => Except.ok (geSevenTenths neg m e)
  | Json.bool b => Except.ok b
  | _ => Except.error ()

/-- Equality of two regex-shaped number literals under Python `==` (exact
real-number comparison): the mantissas are brought to a common decimal
exponent and compared, with sign significant only on nonzero values. -/
def litNumEq (a b : List Char) : Bool :=
  let (n1, m1, e1) := litParts a
  let (n2, m2, e2) := litParts b
  let lo := min e1 e2
  (m1 * pow10 (e1 - lo).toNat == m2 * pow10 (e2 - lo).toNat) &&
    (m1 == 0 || n1 == n2)

/-- Python `==` on two decoded JSON numbers.  `float('nan')` compares unequal
to everything, itself included; the infinities compare equal only to
themselves; finite literals compare by exact value. -/
def pyNumEq (a b : String) : Bool :=
  if a = "NaN" ∨ b = "NaN" then false
  else if a = "Infinity" ∨ a = "-Infinity" ∨ b = "Infinity" ∨ b = "-Infinity"
    then a == b
  else litNumEq a.data b.data

/-- Python `==` on decoded JSON values, fuel-indexed for termination.
Booleans are numbers in Python (`True == 1.0`), strings compare by content,
lists elementwise, and dicts order-insensitively: same size and each key of
the left maps to a `==`-equal value on the right. -/
def pyEqF : Nat → Json → Json → Bool
  | 0, _, _ => false
  | Nat.succ f, a, b =>
    match a, b with
    | Json.null, Json.null => true
    | Json.bool x, Json.bool y => x == y
    | Json.bool x, Json.num l => pyNumEq (if x then "1" else "0") l
    | Json.num l, Json.bool x => pyNumEq l (if x then "1" else "0")
    | Json.num l1, Json.num l2 => pyNumEq l1 l2
    | Json.str s1, Json.str s2 => s1 == s2
    | Json.arr l1, Json.arr l2 =>
      (l1.length == l2.length) &&
        (l1.zip l2).all (fun p => pyEqF f p.1 p.2)
    | Json.obj m1, Json.obj m2 =>
      (m1.length == m2.length) &&
        m1.all (fun kv =>
          match jLookup m2 kv.1 with
          | some v2 => pyEqF f kv.2 v2
          | none => false)
    | _, _ => false

/-- C7 counterexample: on the reply `{"v": NaN}` — which `json.loads`
accepts via its `parse_constant` branch — extraction succeeds, and
re-extracting the `json.dumps` serialization returns the structurally
identical tree, yet under Python `==` the re-extracted value does not equal
the original (indeed not even itself), because `float('nan') != float('nan')`
and dict equality compares values with `==`.  So idempotence read as Python
equality of results fails at every fuel. -/
theorem extract_nan_counterexample :
    parse_json "\x7b\"v\": NaN\x7d" = some (Json.obj [("v", Json.num "NaN")]) ∧
    parse_json (dumps (Json.obj [("v", Json.num "NaN")])) =
      some (Json.obj [("v", Json.num "NaN")]) ∧
    ∀ f, pyEqF f (Json.obj [("v", Json.num "NaN")])
        (Json.obj [("v", Json.num "NaN")]) = false := by
  refine ⟨by rfl, ?_, ?_⟩
  · exact parse_json_dumps (ValidJ.obj _ (by simp)
      (by intro p hp; simp at hp; rw [hp]; exact ValidJ.num _ (Or.inr (Or.inl rfl))))
  · intro f
    match f with
    | 0 => rfl
    | 1 => rfl
    | Nat.succ (Nat.succ g) => rfl

/-- Lines 120-127 of `run`: the confidence comparison, the verified-tag
block, and the final notification's `final.get('title','')[:50]`, each of
which can raise into the except handler. -/
def tagAndFinish (confidence final : Json) : Except Unit Json :=
  match jGE7 confidence with
  | Except.error _ => Except.error ()
  | Except.ok ge =>
    match (if ge then applyVerifiedTag final else Except.ok final) with
    | Except.error _ => Except.error ()
    | Except.ok f2 =>
      if sliceable (jGetD f2 "title" (Json.str "")) then Except.ok f2
      else Except.error ()

/-- Python `(x or [None])[0]`: a truthy `x` is indexed (raising on a
non-sequence), a falsy one yields `None`. -/
def pyIndex0 (x : Json) : Except Unit Json :=
  if jsonTruthy x then
    match x with
    | Json.str s =>
      match s.data with
      | c :: _ => Except.ok (Json.str (String.mk [c]))
      | [] => Except.error ()
    | Json.arr l =>
      match l with
      | v :: _ => Except.ok v
      | [] => Except.error ()
    | _ => Except.error ()
  else Except.ok Json.null

/-- The except-handler card of `run` (lines 139-148), built from the stored
extraction; `.get` on a non-dict raises out of `run` itself. -/
def exceptCard (ext : Json) (content : String) : Except Unit Json :=
  if isObj ext then
    match pyIndex0 (jGetD ext "detected_urls" (Json.arr [])) with
    | Except.ok repo =>
      Except.ok (Json.obj [
        ("title", jGetD ext "title" (Json.str "未知内容")),
        ("summary", jGetD ext "raw_summary"
          (if content ≠ "" then Json.str (pyTake content 500) else Json.str "图片内容")),
        ("key_points", jGetD ext "detected_features" (Json.arr [])),
        ("tags", jGetD ext "detected_names" (Json.arr [])),
        ("category", Json.str "未分类"),
        ("difficulty", Json.str "中级"),
        ("action_items", Json.arr []),
        ("repo_url", repo)])
    | Except.error _ => Except.error ()
  else Except.error ()

/-- What a run yields when no exception escapes: the returned card, how
many `_call_api` invocations happened, `stages_completed`, the stored
`raw_extractions` in insertion order, and whether the fast path returned. -/
structure RunOut where
  card : Json
  calls : Nat
  stages : List String
  extractions : List (String × Json)
  fast : Bool

/-- Wrap the except handler's card into a run outcome. -/
def finishExcept (ext : Json) (content : String) (calls : Nat) (stages : List String)
    (exts : List (String × Json)) : Except Unit RunOut :=
  match exceptCard ext content with
  | Except.ok c => Except.ok ⟨c, calls, stages, exts, false⟩
  | Except.error _ => Except.error ()

/-- Model of `DistillationPipeline.run` (lines 47-148).  `Except.error` is
an exception escaping `run` (possible: the except handler itself raises on
a non-dict stored extraction).  Stage notifications never raise
(`_notify` catches internally), but the f-string arguments evaluated in
`run` before calling it can. -/
def runPipeline (e : Env) (content : String) (images : List String) :
    Except Unit RunOut :=
  let ps := simpleDistill e content images 0
  if fastOk ps.1 then Except.ok ⟨ps.1, ps.2, [], [], true⟩
  else
    let pe := stageExtract e content images ps.2
    let extraction := pe.1
    if isObj extraction then
      if jsonTruthy (jGetD extraction "error" Json.null) then
        finishExcept extraction content pe.2 ["extract"] [("extract", extraction)]
      else
        let pa := stageAnalyze e pe.2
        let analysis := pa.1
        match stageSearch e extraction analysis pa.2 with
        | Except.error _ =>
          finishExcept extraction content pa.2 ["extract", "analyze"]
            [("extract", extraction), ("analyze", analysis)]
        | Except.ok pr =>
          let enriched := pr.1
          let pv := stageVerify e pr.2
          let verification := pv.1
          if isObj verification then
            let psy := stageSynthesize e extraction analysis enriched pv.2
            match psy.1 with
            | Except.error _ =>
              finishExcept extraction content psy.2
                ["extract", "analyze", "search", "verify"]
                [("extract", extraction), ("analyze", analysis),
                 ("search", enriched), ("verify", verification)]
            | Except.ok final =>
              match tagAndFinish (jGetD verification "confidence" (Json.num "0.5")) final with
              | Except.ok f2 =>
                Except.ok ⟨f2, psy.2,
                  ["extract", "analyze", "search", "verify", "synthesize"],
                  [("extract", extraction), ("analyze", analysis),
                   ("search", enriched), ("verify", verification)], false⟩
              | Except.error _ =>
                finishExcept extraction content psy.2
                  ["extract", "analyze", "search", "verify", "synthesize"]
                  [("extract", extraction), ("analyze", analysis),
                   ("search", enriched), ("verify", verification)]
          else
            finishExcept extraction content pv.2
              ["extract", "analyze", "search", "verify"]
              [("extract", extraction), ("analyze", analysis),
               ("search", enriched), ("verify", verification)]
    else
      finishExcept extraction content pe.2 ["extract"] [("extract", extraction)]

/-! ## Concrete environments for closed evaluations -/

/-- An unconfigured gateway (no reply would arrive anyway). -/
def envDead : Env := ⟨⟨false, fun _ => none⟩, fun _ => false⟩

/-- A configured gateway that answers every call with a vision-style plain
text reply, with every image path loadable. -/
def envVision : Env := ⟨⟨true, fun _ => some "ok"⟩, fun _ => true⟩

/-! ## The short-circuit (no-content) path of `run` -/

theorem simpleDistill_short (e : Env) (content : String)
    (h : (pyStrip content).length < 10) :
    simpleDistill e content [] 0 = (errDict "没有有效内容", 0) := by
  unfold simpleDistill simpleCore
  simp only [List.isEmpty_nil, if_true]
  rw [if_pos (Or.inr h)]

theorem stageExtract_short (e : Env) (content : String) (n : Nat)
    (h : (pyStrip content).length < 10) :
    stageExtract e content [] n = (errDict "没有有效内容可提取", n) := by
  unfold stageExtract
  simp only [List.isEmpty_nil, if_true]
  rw [if_pos (Or.inr h)]

/-- Any image-free input whose stripped content is shorter than 10
characters walks: simple distill short-circuits with an error dict, the
staged pipeline's Extract stage short-circuits the same way, `run`'s error
check raises, and the except handler builds the fallback card — all with
zero gateway invocations. -/
theorem runPipeline_short (e : Env) (content : String)
    (h : (pyStrip content).length < 10) :
    runPipeline e content [] = Except.ok ⟨Json.obj [
      ("title", Json.str "未知内容"),
      ("summary", if content ≠ "" then Json.str (pyTake content 500) else Json.str "图片内容"),
      ("key_points", Json.arr []), ("tags", Json.arr []),
      ("category", Json.str "未分类"), ("difficulty", Json.str "中级"),
      ("action_items", Json.arr []), ("repo_url", Json.null)],
      0, ["extract"], [("extract", errDict "没有有效内容可提取")], false⟩ := by
  unfold runPipeline
  rw [simpleDistill_short e content h]
  simp only []
  rw [stageExtract_short e content 0 h]
  rfl

/-- C10 (amended): whenever the image-free input's stripped content has
fewer than 10 characters — including non-blank text of 1 to 9 characters —
the pipeline treats it as having no content: no gateway call is ever made
(in particular no fast-path text call), the Extract stage returns the
no-content error dict, and `run` returns the except-handler fallback card. -/
theorem short_input_amended (e : Env) (content : String)
    (h : (pyStrip content).length < 10) :
    runPipeline e content [] = Except.ok ⟨Json.obj [
      ("title", Json.str "未知内容"),
      ("summary", if content ≠ "" then Json.str (pyTake content 500) else Json.str "图片内容"),
      ("key_points", Json.arr []), ("tags", Json.arr []),
      ("category", Json.str "未分类"), ("difficulty", Json.str "中级"),
      ("action_items", Json.arr []), ("repo_url", Json.null)],
      0, ["extract"], [("extract", errDict "没有有效内容可提取")], false⟩ :=
  runPipeline_short e content h

theorem short_input_amended_witness :
    (pyStrip "abc").length < 10 ∧
    runPipeline envDead "abc" [] = Except.ok ⟨Json.obj [
      ("title", Json.str "未知内容"),
      ("summary", Json.str "abc"),
      ("key_points", Json.arr []), ("tags", Json.arr []),
      ("category", Json.str "未分类"), ("difficulty", Json.str "中级"),
      ("action_items", Json.arr []), ("repo_url", Json.null)],
      0, ["extract"], [("extract", errDict "没有有效内容可提取")], false⟩ :=
  ⟨by decide, short_input_amended envDead "abc" (by decide)⟩

/-- C10 counterexample: with an image attached, a combined content below 10
characters (here `[图片内容]` + newline + `ok`, 9 characters) still returns
the Extract stage's no-content error dict, but only after one gateway
(vision) invocation — the claim's "without a gateway call" fails. -/
theorem short_input_counterexample :
    stageExtract envVision "" ["i"] 0 = (errDict "没有有效内容可提取", 1) ∧
    simpleDistill envVision "" ["i"] 0 = (errDict "没有有效内容", 1) := ⟨rfl, rfl⟩

/-- C1 counterexample: two blank inputs (empty text and a single space,
both with no images) return fallback cards whose summaries differ — the
empty text gets the fixed string `图片内容`, the space gets itself — so the
card's summary is not one fixed "no content" text. -/
theorem blank_input_counterexample :
    ∃ o1 o2, runPipeline envDead "" [] = Except.ok o1 ∧
      runPipeline envDead " " [] = Except.ok o2 ∧
      o1.calls = 0 ∧ o2.calls = 0 ∧
      jGetN o1.card "summary" = Json.str "图片内容" ∧
      jGetN o2.card "summary" = Json.str " " :=
  ⟨_, _, rfl, rfl, rfl, rfl, rfl, rfl⟩

/-- C1 (amended): on blank text with no images, `run` makes no gateway
invocation and returns the except-handler fallback card: title `未知内容`,
empty key_points/tags/action_items and a `None` repo URL; its summary is
the fixed `图片内容` only when the text is empty, and the blank text itself
(truncated to 500) otherwise. -/
theorem blank_input_amended (e : Env) (content : String)
    (h : pyStrip content = "") :
    runPipeline e content [] = Except.ok ⟨Json.obj [
      ("title", Json.str "未知内容"),
      ("summary", if content ≠ "" then Json.str (pyTake content 500) else Json.str "图片内容"),
      ("key_points", Json.arr []), ("tags", Json.arr []),
      ("category", Json.str "未分类"), ("difficulty", Json.str "中级"),
      ("action_items", Json.arr []), ("repo_url", Json.null)],
      0, ["extract"], [("extract", errDict "没有有效内容可提取")], false⟩ :=
  runPipeline_short e content (by rw [h]; decide)

theorem blank_input_amended_witness :
    pyStrip " " = "" ∧
    runPipeline envDead " " [] = Except.ok ⟨Json.obj [
      ("title", Json.str "未知内容"),
      ("summary", Json.str " "),
      ("key_points", Json.arr []), ("tags", Json.arr []),
      ("category", Json.str "未分类"), ("difficulty", Json.str "中级"),
      ("action_items", Json.arr []), ("repo_url", Json.null)],
      0, ["extract"], [("extract", errDict "没有有效内容可提取")], false⟩ :=
  ⟨by decide, blank_input_amended envDead " " (by decide)⟩

/-- The card `_stage_synthesize` builds when every gateway reply was `None`:
each parse gives `{}` and every entry falls back to its default. -/
def defaultSynthCard : Json :=
  Json.obj [
    ("title", Json.str "未知"), ("summary", Json.str ""),
    ("key_points", Json.arr []), ("tags", Json.arr []),
    ("category", Json.str "未分类"), ("difficulty", Json.str "中级"),
    ("action_items", Json.arr []),
    ("usage_example", Json.null), ("deployment_guide", Json.null),
    ("is_open_source", Json.bool false), ("repo_url", Json.null),
    ("official_docs", Json.null), ("quick_reference", Json.null),
    ("related_topics", Json.arr []), ("learning_resources", Json.arr []),
    ("pros_cons", Json.null), ("best_practices", Json.arr []),
    ("common_mistakes", Json.arr [])]

/-- C3 (amended): an unconfigured gateway makes `_call_api` return `None`
on every call; `run` does not stop after the first such reply but walks the
fast path and then all five stages, invoking the gateway six times in
total, and returns the fully-defaulted synthesized card rather than a
fatal error. -/
theorem unconfigured_amended (e : Env) (content : String) (images : List String)
    (hc : e.gw.configured = false) (h10 : 10 ≤ (pyStrip content).length) :
    runPipeline e content images = Except.ok ⟨defaultSynthCard, 6,
      ["extract", "analyze", "search", "verify", "synthesize"],
      [("extract", Json.obj []), ("analyze", Json.obj []),
       ("search", Json.obj []), ("verify", Json.obj [])], false⟩ := by
  have hCall : ∀ n, callApi e n = (none, n + 1) := by
    intro n
    simp [callApi, hc]
  have hImg : ∀ n, (if images.isEmpty then ((none : Option String), n)
      else analyzeImage e images n) = (none, n) := by
    intro n
    by_cases himg : images.isEmpty
    · rw [if_pos himg]
    · rw [if_neg himg]
      simp [analyzeImage, hc]
  have hcond : ¬(content = "" ∨ (pyStrip content).length < 10) := by
    rintro (rfl | hlt)
    · simp [pyStrip, pyStripL] at h10
    · omega
  have hSimple : simpleDistill e content images 0 = (errDict "AI 未返回结果", 1) := by
    unfold simpleDistill simpleCore
    rw [hImg 0]
    simp only []
    rw [if_neg hcond, hCall 0]
  have hExtract : stageExtract e content images 1 = (Json.obj [], 2) := by
    unfold stageExtract
    rw [hImg 1]
    simp only []
    rw [if_neg hcond, hCall 1]
    rfl
  have hAnalyze : ∀ n, stageAnalyze e n = (Json.obj [], n + 1) := by
    intro n
    unfold stageAnalyze
    rw [hCall n]
    rfl
  have hSearch : ∀ n, stageSearch e (Json.obj []) (Json.obj []) n =
      Except.ok (Json.obj [], n + 1) := by
    intro n
    unfold stageSearch
    rw [hCall n]
    rfl
  have hVerify : ∀ n, stageVerify e n = (Json.obj [], n + 1) := by
    intro n
    unfold stageVerify
    rw [hCall n]
    rfl
  have hSynth : ∀ n, stageSynthesize e (Json.obj []) (Json.obj []) (Json.obj []) n =
      (Except.ok defaultSynthCard, n + 1) := by
    intro n
    unfold stageSynthesize
    rw [hCall n]
    rfl
  unfold runPipeline
  rw [hSimple]
  simp only []
  rw [hExtract]
  simp only []
  rw [hAnalyze 2]
  simp only []
  rw [hSearch 3]
  simp only []
  rw [hVerify 4]
  simp only []
  rw [hSynth 5]
  rfl

theorem unconfigured_amended_witness :
    envDead.gw.configured = false ∧ 10 ≤ (pyStrip "0123456789x").length ∧
    runPipeline envDead "0123456789x" [] = Except.ok ⟨defaultSynthCard, 6,
      ["extract", "analyze", "search", "verify", "synthesize"],
      [("extract", Json.obj []), ("analyze", Json.obj []),
       ("search", Json.obj []), ("verify", Json.obj [])], false⟩ :=
  ⟨rfl, by decide, unconfigured_amended envDead "0123456789x" [] rfl (by decide)⟩

/-- C3 counterexample: with the gateway unconfigured from the very first
call, `run` neither terminates after that call nor classifies the run as
fatally unconfigured: it calls the gateway six times and returns the
default degraded card through the full staged pipeline. -/
theorem unconfigured_counterexample :
    envDead.gw.configured = false ∧
    runPipeline envDead "0123456789" [] = Except.ok ⟨defaultSynthCard, 6,
      ["extract", "analyze", "search", "verify", "synthesize"],
      [("extract", Json.obj []), ("analyze", Json.obj []),
       ("search", Json.obj []), ("verify", Json.obj [])], false⟩ := ⟨rfl, rfl⟩

/-- A configured gateway whose every reply is unparseable plain text. -/
def envBad : Env := ⟨⟨true, fun _ => some "not json"⟩, fun _ => false⟩

/-- C4 counterexample: when the gateway call fails (`None` reply), a stage
returns the *empty* dict `{}` — `_parse_json(None)` returns `{}` without
raising, so the heuristic fallback is not reached — and when the reply is
unparseable, the Analyze stage's heuristic fallback carries no `error`
annotation at all.  Both halves contradict "never empty … and it carries a
non-fatal error annotation". -/
theorem stage_fallback_counterexample :
    stageAnalyze envDead 0 = (Json.obj [], 1) ∧
    stageVerify envDead 0 = (Json.obj [], 1) ∧
    stageExtract envDead "0123456789" [] 0 = (Json.obj [], 1) ∧
    stageAnalyze envBad 0 = (analyzeFallback, 1) ∧
    jGetN analyzeFallback "error" = Json.null :=
  ⟨rfl, rfl, rfl, rfl, rfl⟩

/-- The final card of a run in which every gateway reply is unparseable
text: Synthesize's except-branch card built from the Extract and Analyze
heuristic fallbacks. -/
def degradedRunCard (content : String) : Json :=
  Json.obj [("title", Json.str (pyTake content 100)),
    ("summary", Json.str (pyTake content 500)),
    ("key_points", Json.arr []), ("tags", Json.arr []),
    ("category", Json.str "未知"), ("difficulty", Json.str "中级"),
    ("action_items", Json.arr [])]

/-- A configured gateway whose first reply is unparseable text and whose
later calls fail (`None`). -/
def envMixed : Env :=
  ⟨⟨true, fun k => if k = 0 then some "not json" else none⟩, fun _ => false⟩

/-- C4 (amended): when the gateway returns nonempty text on which the
extractor fails, each of the five stage executors returns its deterministic
rule-based heuristic reconstruction — Extract the sliced-content dict,
Analyze and Verify their fixed dicts, Search-Enrich the URL-forwarding
dict, and Synthesize the small card built from extraction and analysis —
none carrying an error annotation; when the gateway call fails outright
(`None` reply), `_parse_json(None)` returns `\x7b\x7d` without raising, so
the first four stages return the empty dict and Synthesize builds the
fully-defaulted card; both result shapes pass `run`'s only error gate, and
a run whose every reply is unparseable completes all five stages and
returns the degraded card — the orchestrator continues throughout. -/
theorem stage_fallback_amended (e : Env) (content : String) (x a enr : Json)
    (n m : Nat) (r : String)
    (hc : e.gw.configured = true) (hr : e.gw.responses n = some r)
    (hne : r ≠ "") (hp : parse_json r = none)
    (hx : isObj x = true) (ha : isObj a = true)
    (h10 : 10 ≤ (pyStrip content).length)
    (hm : e.gw.responses m = none) :
    stageExtract e content [] n = (extractFallback content, n + 1) ∧
    stageAnalyze e n = (analyzeFallback, n + 1) ∧
    stageSearch e x a n = Except.ok (searchFallback x, n + 1) ∧
    stageVerify e n = (verifyFallback, n + 1) ∧
    stageSynthesize e x a enr n = (smallCard x a, n + 1) ∧
    stageExtract e content [] m = (Json.obj [], m + 1) ∧
    stageAnalyze e m = (Json.obj [], m + 1) ∧
    stageSearch e x a m = Except.ok (Json.obj [], m + 1) ∧
    stageVerify e m = (Json.obj [], m + 1) ∧
    stageSynthesize e (Json.obj []) (Json.obj []) (Json.obj []) m =
      (Except.ok defaultSynthCard, m + 1) ∧
    jsonTruthy (jGetD (extractFallback content) "error" Json.null) = false ∧
    jsonTruthy (jGetD (Json.obj []) "error" Json.null) = false ∧
    (∀ e2 content2 r2, e2.gw.configured = true →
      (∀ k, e2.gw.responses k = some r2) → r2 ≠ "" → parse_json r2 = none →
      10 ≤ (pyStrip content2).length →
      runPipeline e2 content2 [] = Except.ok ⟨degradedRunCard content2, 6,
        ["extract", "analyze", "search", "verify", "synthesize"],
        [("extract", extractFallback content2), ("analyze", analyzeFallback),
         ("search", searchFallback (extractFallback content2)),
         ("verify", verifyFallback)], false⟩) := by
  have hCall : callApi e n = (some r, n + 1) := by
    simp [callApi, hc, hr]
  have hCm : callApi e m = (none, m + 1) := by
    simp [callApi, hc, hm]
  have hopt : parseJsonOpt (some r) = none := by
    show (if r = "" then some (Json.obj []) else parse_json r) = none
    rw [if_neg hne, hp]
  have hcond : ¬(content = "" ∨ (pyStrip content).length < 10) := by
    rintro (rfl | hlt)
    · simp [pyStrip, pyStripL] at h10
    · omega
  have hobj : (isObj x && isObj a) = true := by rw [hx, ha]; rfl
  refine ⟨?_, ?_, ?_, ?_, ?_, ?_, ?_, ?_, ?_, ?_, rfl, rfl, ?_⟩
  · unfold stageExtract
    simp only [List.isEmpty_nil, if_true]
    rw [if_neg hcond, hCall]
    simp only [hopt]
  · unfold stageAnalyze
    rw [hCall]
    simp only [hopt]
  · unfold stageSearch
    rw [if_pos hobj, hCall]
    simp only [hopt]
  · unfold stageVerify
    rw [hCall]
    simp only [hopt]
  · unfold stageSynthesize
    rw [hCall]
    simp only [hopt]
  · unfold stageExtract
    simp only [List.isEmpty_nil, if_true]
    rw [if_neg hcond, hCm]
    rfl
  · unfold stageAnalyze
    rw [hCm]
    rfl
  · unfold stageSearch
    rw [if_pos hobj, hCm]
    rfl
  · unfold stageVerify
    rw [hCm]
    rfl
  · unfold stageSynthesize
    rw [hCm]
    rfl
  · intro e2 content2 r2 hc2 hr2 hne2 hp2 h102
    have hCall2 : ∀ k, callApi e2 k = (some r2, k + 1) := by
      intro k
      simp [callApi, hc2, hr2 k]
    have hopt2 : parseJsonOpt (some r2) = none := by
      show (if r2 = "" then some (Json.obj []) else parse_json r2) = none
      rw [if_neg hne2, hp2]
    have hcond2 : ¬(content2 = "" ∨ (pyStrip content2).length < 10) := by
      rintro (rfl | hlt)
      · simp [pyStrip, pyStripL] at h102
      · omega
    have hSimple : simpleDistill e2 content2 [] 0 = (parseFailDict content2, 1) := by
      unfold simpleDistill simpleCore
      simp only [List.isEmpty_nil, if_true]
      rw [if_neg hcond2, hCall2 0]
      simp only []
      rw [if_neg hne2, hp2]
    have hExtract2 : stageExtract e2 content2 [] 1 = (extractFallback content2, 2) := by
      unfold stageExtract
      simp only [List.isEmpty_nil, if_true]
      rw [if_neg hcond2, hCall2 1]
      simp only [hopt2]
    have hAnalyze2 : stageAnalyze e2 2 = (analyzeFallback, 3) := by
      unfold stageAnalyze
      rw [hCall2 2]
      simp only [hopt2]
    have hSearch2 : stageSearch e2 (extractFallback content2) analyzeFallback 3 =
        Except.ok (searchFallback (extractFallback content2), 4) := by
      unfold stageSearch
      rw [if_pos (show (isObj (extractFallback content2) && isObj analyzeFallback) = true
        from rfl), hCall2 3]
      simp only [hopt2]
    have hVerify2 : stageVerify e2 4 = (verifyFallback, 5) := by
      unfold stageVerify
      rw [hCall2 4]
      simp only [hopt2]
    have hSynth2 : stageSynthesize e2 (extractFallback content2) analyzeFallback
        (searchFallback (extractFallback content2)) 5 =
        (smallCard (extractFallback content2) analyzeFallback, 6) := by
      unfold stageSynthesize
      rw [hCall2 5]
      simp only [hopt2]
    unfold runPipeline
    rw [hSimple]
    simp only []
    rw [hExtract2]
    simp only []
    rw [hAnalyze2]
    simp only []
    rw [hSearch2]
    simp only []
    rw [hVerify2]
    simp only []
    rw [hSynth2]
    rfl

theorem stage_fallback_amended_witness :
    stageExtract envMixed "0123456789" [] 0 = (extractFallback "0123456789", 0 + 1) ∧
    stageAnalyze envMixed 0 = (analyzeFallback, 0 + 1) ∧
    stageSearch envMixed (Json.obj []) (Json.obj []) 0 =
      Except.ok (searchFallback (Json.obj []), 0 + 1) ∧
    stageVerify envMixed 0 = (verifyFallback, 0 + 1) ∧
    stageSynthesize envMixed (Json.obj []) (Json.obj []) (Json.obj []) 0 =
      (smallCard (Json.obj []) (Json.obj []), 0 + 1) ∧
    stageExtract envMixed "0123456789" [] 1 = (Json.obj [], 1 + 1) ∧
    stageAnalyze envMixed 1 = (Json.obj [], 1 + 1) ∧
    stageSearch envMixed (Json.obj []) (Json.obj []) 1 =
      Except.ok (Json.obj [], 1 + 1) ∧
    stageVerify envMixed 1 = (Json.obj [], 1 + 1) ∧
    stageSynthesize envMixed (Json.obj []) (Json.obj []) (Json.obj []) 1 =
      (Except.ok defaultSynthCard, 1 + 1) ∧
    jsonTruthy (jGetD (extractFallback "0123456789") "error" Json.null) = false ∧
    jsonTruthy (jGetD (Json.obj []) "error" Json.null) = false ∧
    runPipeline envBad "0123456789" [] = Except.ok ⟨degradedRunCard "0123456789", 6,
      ["extract", "analyze", "search", "verify", "synthesize"],
      [("extract", extractFallback "0123456789"), ("analyze", analyzeFallback),
       ("search", searchFallback (extractFallback "0123456789")),
       ("verify", verifyFallback)], false⟩ := by
  obtain ⟨h1, h2, h3, h4, h5, h6, h7, h8, h9, h10, h11, h12, hrun⟩ :=
    stage_fallback_amended envMixed "0123456789" (Json.obj []) (Json.obj []) (Json.obj [])
      0 1 "not json" rfl rfl (by decide) (by rfl) rfl rfl (by decide) rfl
  exact ⟨h1, h2, h3, h4, h5, h6, h7, h8, h9, h10, h11, h12,
    hrun envBad "0123456789" "not json" rfl (fun k => rfl) (by decide) (by rfl) (by decide)⟩

/-- Occurrences of the literal tag `已验证` in a decoded tag list. -/
def countVer (l : List Json) : Nat := l.countP isVerStr

/-- A gateway whose run fails the fast path and the first three stages
(`None` replies), reports verification confidence 0.9, and synthesizes a
card that already carries the verified tag twice. -/
def envC5 : Env := ⟨⟨true, fun n =>
  if n = 4 then some "\x7b\"confidence\": 0.9\x7d"
  else if n = 5 then some "\x7b\"tags\": [\"已验证\", \"已验证\"]\x7d"
  else none⟩, fun _ => false⟩

/-- The synthesized card of the `envC5` run: all defaults except the
duplicated verified tag. -/
def dupTagCard : Json :=
  Json.obj [
    ("title", Json.str "未知"), ("summary", Json.str ""),
    ("key_points", Json.arr []),
    ("tags", Json.arr [Json.str "已验证", Json.str "已验证"]),
    ("category", Json.str "未分类"), ("difficulty", Json.str "中级"),
    ("action_items", Json.arr []),
    ("usage_example", Json.null), ("deployment_guide", Json.null),
    ("is_open_source", Json.bool false), ("repo_url", Json.null),
    ("official_docs", Json.null), ("quick_reference", Json.null),
    ("related_topics", Json.arr []), ("learning_resources", Json.arr []),
    ("pros_cons", Json.null), ("best_practices", Json.arr []),
    ("common_mistakes", Json.arr [])]

/-- C5 counterexample: a run that reaches Synthesize with confidence 0.9
and a model card already holding `已验证` twice returns the tag twice —
the membership test skips the append but never de-duplicates, so the tag
is not contained "exactly once". -/
theorem verified_tag_counterexample :
    runPipeline envC5 "0123456789" [] =
      Except.ok ⟨dupTagCard, 6,
        ["extract", "analyze", "search", "verify", "synthesize"],
        [("extract", Json.obj []), ("analyze", Json.obj []),
         ("search", Json.obj []),
         ("verify", Json.obj [("confidence", Json.num "0.9")])], false⟩ ∧
    countVer [Json.str "已验证", Json.str "已验证"] = 2 := ⟨rfl, rfl⟩

/-- C5 (amended): when the confidence gate fires on a card whose tag entry
is a list, the verified-tag block leaves `已验证` occurring
`max(previous count, 1)` times: it is appended exactly when absent, and an
already-present tag (even duplicated) is kept untouched. -/
theorem verified_tag_amended (fs : List (String × Json)) (l : List Json)
    (htags : jGetD (Json.obj fs) "tags" (Json.arr []) = Json.arr l) :
    applyVerifiedTag (Json.obj fs) = Except.ok (Json.obj (jSet fs "tags"
      (Json.arr (if countVer l = 0 then l ++ [Json.str "已验证"] else l)))) ∧
    countVer (if countVer l = 0 then l ++ [Json.str "已验证"] else l) = max (countVer l) 1 := by
  have hone : isVerStr (Json.str "已验证") = true := by decide
  constructor
  · unfold applyVerifiedTag
    rw [htags]
    by_cases hc : countVer l = 0
    · have hany : l.any isVerStr = false := by
        rw [List.any_eq_false]
        intro x hx
        intro hpx
        have : 0 < l.countP isVerStr := List.countP_pos_iff.mpr ⟨x, hx, hpx⟩
        have hc' := hc
        unfold countVer at hc'
        omega
      simp only [tagIn, hany, if_pos hc]
    · have hany : l.any isVerStr = true := by
        rw [List.any_eq_true]
        have : 0 < l.countP isVerStr := by
          have := hc
          unfold countVer at this
          omega
        obtain ⟨x, hx, hpx⟩ := List.countP_pos_iff.mp this
        exact ⟨x, hx, hpx⟩
      simp only [tagIn, hany, if_neg hc]
  · by_cases hc : countVer l = 0
    · rw [if_pos hc]
      unfold countVer at hc ⊢
      rw [List.countP_append]
      simp [hone, hc]
    · rw [if_neg hc]
      unfold countVer at hc ⊢
      rw [max_eq_left (by omega)]

theorem verified_tag_amended_witness :
    jGetD (Json.obj [("tags", Json.arr [Json.str "x"])]) "tags" (Json.arr []) =
      Json.arr [Json.str "x"] ∧
    (applyVerifiedTag (Json.obj [("tags", Json.arr [Json.str "x"])]) =
      Except.ok (Json.obj (jSet [("tags", Json.arr [Json.str "x"])] "tags"
        (Json.arr (if countVer [Json.str "x"] = 0
          then [Json.str "x"] ++ [Json.str "已验证"] else [Json.str "x"])))) ∧
      countVer (if countVer [Json.str "x"] = 0
          then [Json.str "x"] ++ [Json.str "已验证"] else [Json.str "x"]) =
        max (countVer [Json.str "x"]) 1) :=
  ⟨rfl, verified_tag_amended [("tags", Json.arr [Json.str "x"])] [Json.str "x"] rfl⟩

theorem analyzeImage_snd (e : Env) (p : List String) (n : Nat) :
    (analyzeImage e p n).2 = n ∨ (analyzeImage e p n).2 = n + 1 := by
  unfold analyzeImage callApi
  split_ifs <;> simp

theorem simpleCore_calls (e : Env) (actual : String) (m : Nat)
    (h : fastOk (simpleCore e actual m).1 = true) :
    (simpleCore e actual m).2 = m + 1 := by
  unfold simpleCore at h ⊢
  by_cases hq : actual = "" ∨ (pyStrip actual).length < 10
  · rw [if_pos hq] at h
    rw [show ((errDict "没有有效内容", m) : Json × Nat).1 = errDict "没有有效内容" from rfl] at h
    exact absurd h (by decide)
  · rw [if_neg hq]
    obtain ⟨ro, m2, hc2, hm2⟩ : ∃ ro m2, callApi e m = (ro, m2) ∧ m2 = m + 1 := by
      unfold callApi
      split_ifs <;> exact ⟨_, _, rfl, rfl⟩
    rw [hc2]
    subst hm2
    cases ro with
    | none => rfl
    | some r =>
      dsimp only []
      by_cases hr : r = ""
      · rw [if_pos hr]
      · rw [if_neg hr]
        rcases parse_json r with _ | v <;> rfl

theorem simpleDistill_calls (e : Env) (content : String) (images : List String) (n : Nat)
    (h : fastOk (simpleDistill e content images n).1 = true) :
    (simpleDistill e content images n).2 = n + 1 ∨
      (simpleDistill e content images n).2 = n + 2 := by
  rcases hsnd : (if images.isEmpty then ((none : Option String), n)
      else analyzeImage e images n) with ⟨t, m⟩
  have hm : m = n ∨ m = n + 1 := by
    by_cases hi : images.isEmpty
    · rw [if_pos hi] at hsnd
      cases hsnd
      exact Or.inl rfl
    · rw [if_neg hi] at hsnd
      have h2 := analyzeImage_snd e images n
      rw [hsnd] at h2
      exact h2
  unfold simpleDistill at h ⊢
  rw [hsnd] at h ⊢
  have := simpleCore_calls e _ m h
  rw [this]
  omega

/-- A configured gateway whose every reply is a small valid JSON object
with no error entry, so the fast path succeeds. -/
def envFast : Env := ⟨⟨true, fun _ => some "\x7b\"a\": 1\x7d"⟩, fun _ => false⟩

/-- C6: whenever the fast path succeeds (the simple-distill result passes
`run`'s check and the notification raises nothing), `run` returns that
result with no stage executed, no extraction stored, and the gateway
called exactly once (text call only) or exactly twice (vision pre-pass
plus text call) — never more. -/
theorem fast_path_calls (e : Env) (content : String) (images : List String)
    (h : fastOk (simpleDistill e content images 0).1 = true) :
    runPipeline e content images = Except.ok ⟨(simpleDistill e content images 0).1,
      (simpleDistill e content images 0).2, [], [], true⟩ ∧
    ((simpleDistill e content images 0).2 = 1 ∨ (simpleDistill e content images 0).2 = 2) := by
  constructor
  · unfold runPipeline
    simp only []
    rw [if_pos h]
  · exact simpleDistill_calls e content images 0 h

theorem fast_path_calls_witness :
    fastOk (simpleDistill envFast "0123456789" [] 0).1 = true ∧
    (runPipeline envFast "0123456789" [] =
      Except.ok ⟨(simpleDistill envFast "0123456789" [] 0).1,
        (simpleDistill envFast "0123456789" [] 0).2, [], [], true⟩ ∧
      ((simpleDistill envFast "0123456789" [] 0).2 = 1 ∨
        (simpleDistill envFast "0123456789" [] 0).2 = 2)) :=
  ⟨by rfl, fast_path_calls envFast "0123456789" [] (by rfl)⟩

theorem listSet_go (l acc : List String) (h : acc.Nodup) :
    (l.foldl (fun a s => if s ∈ a then a else a ++ [s]) acc).Nodup ∧
    (∀ u, u ∈ l.foldl (fun a s => if s ∈ a then a else a ++ [s]) acc ↔ u ∈ acc ∨ u ∈ l) := by
  induction l generalizing acc with
  | nil =>
    refine ⟨h, fun u => by simp⟩
  | cons x t ih =>
    simp only [List.foldl_cons]
    by_cases hx : x ∈ acc
    · rw [if_pos hx]
      obtain ⟨hn, hm⟩ := ih acc h
      refine ⟨hn, fun u => ?_⟩
      rw [hm u, List.mem_cons]
      constructor
      · rintro (hu | hu)
        · exact Or.inl hu
        · exact Or.inr (Or.inr hu)
      · rintro (hu | rfl | hu)
        · exact Or.inl hu
        · exact Or.inl hx
        · exact Or.inr hu
    · rw [if_neg hx]
      have hnd : (acc ++ [x]).Nodup := by
        refine List.Nodup.append h (List.nodup_singleton x) ?_
        intro a ha hb
        rw [List.mem_singleton] at hb
        subst hb
        exact hx ha
      obtain ⟨hn, hm⟩ := ih (acc ++ [x]) hnd
      refine ⟨hn, fun u => ?_⟩
      rw [hm u, List.mem_append, List.mem_singleton, List.mem_cons]
      tauto

theorem listSet_nodup (l : List String) : (listSet l).Nodup :=
  (listSet_go l [] List.nodup_nil).1

theorem mem_listSet (l : List String) (u : String) : u ∈ listSet l ↔ u ∈ l := by
  have h2 := (listSet_go l [] List.nodup_nil).2 u
  unfold listSet
  rw [h2]
  simp

example : extract_urls "see https://a.b/x and https://a.b/x or http://c\x27d" =
    ["https://a.b/x", "http://c"] := by rfl

/-- C9: the Extract stage's heuristic fallback is a pure function of the
input text — the same text always yields the identical dict — and its
`detected_urls` entry is exactly the de-duplicated URL scan: free of
duplicates, and containing a URL precisely when the regular-expression
scan found it.  The model fixes the `list(set(...))` order as
first-occurrence order, which within one interpreter session is one fixed
function of the scanned URLs. -/
theorem extract_fallback_deterministic (s : String) :
    extractFallback s = extractFallback s ∧
    jGetN (extractFallback s) "detected_urls" =
      Json.arr ((extract_urls s).map Json.str) ∧
    (extract_urls s).Nodup ∧
    (∀ u, u ∈ extract_urls s ↔ u ∈ scanUrls (s.data.length + 1) s.data) := by
  refine ⟨rfl, rfl, listSet_nodup _, fun u => mem_listSet _ u⟩

def hasKey (v : Json) (k : String) : Bool :=
  match v with
  | Json.obj fs => (jLookup fs k).isSome
  | _ => false

def has7 (v : Json) : Bool :=
  ["title", "summary", "key_points", "tags", "category", "difficulty",
   "action_items"].all (hasKey v)

theorem jLookup_jSet (fs : List (String × Json)) (k : String) (v : Json) (k' : String) :
    jLookup (jSet fs k v) k' = if k' = k then some v else jLookup fs k' := by
  induction fs with
  | nil =>
    by_cases h : k' = k
    · subst h
      simp [jSet, jLookup]
    · have h2 : ¬(k = k') := fun hc => h hc.symm
      simp [jSet, jLookup, h, h2]
  | cons p t ih =>
    rcases p with ⟨k0, v0⟩
    unfold jSet
    by_cases h0 : k0 = k
    · subst h0
      rw [if_pos rfl]
      by_cases h' : k0 = k'
      · subst h'
        simp [jLookup]
      · have h2 : ¬(k' = k0) := fun hc => h' hc.symm
        simp [jLookup, h', h2]
    · rw [if_neg h0]
      by_cases h' : k0 = k'
      · subst h'
        simp [jLookup, h0]
      · simp [jLookup, h', ih]

theorem has7_jSet (fs : List (String × Json)) (k : String) (v : Json)
    (h : has7 (Json.obj fs) = true) : has7 (Json.obj (jSet fs k v)) = true := by
  rw [has7, List.all_eq_true] at h ⊢
  intro x hx
  have hx7 := h x hx
  simp only [hasKey] at hx7 ⊢
  rw [jLookup_jSet]
  by_cases hxk : x = k
  · rw [if_pos hxk]
    rfl
  · rw [if_neg hxk]
    exact hx7

theorem has7_bigCardObj (p x a r : Json) : has7 (bigCardObj p x a r) = true := rfl

theorem smallCard_has7 {x a c : Json} (h : smallCard x a = Except.ok c) : has7 c = true := by
  unfold smallCard at h
  split_ifs at h
  injection h with h2
  subst h2
  rfl

theorem bigCard_has7 {p x a en c : Json} (h : bigCard p x a en = Except.ok c) :
    has7 c = true := by
  unfold bigCard at h
  split_ifs at h
  all_goals
    injection h with h2
    subst h2
    exact has7_bigCardObj _ _ _ _

theorem exceptCard_has7 {ext : Json} {content : String} {c : Json}
    (h : exceptCard ext content = Except.ok c) : has7 c = true := by
  unfold exceptCard at h
  split_ifs at h
  all_goals first
    | exact Except.noConfusion h
    | (rcases hpi : pyIndex0 (jGetD ext "detected_urls" (Json.arr [])) with u | repo
       · rw [hpi] at h
         simp at h
       · rw [hpi] at h
         simp only [Except.ok.injEq] at h
         subst h
         rfl)

theorem stageSynthesize_fst_ok {e : Env} {x a en : Json} {n : Nat} {c : Json}
    (h : (stageSynthesize e x a en n).1 = Except.ok c) : has7 c = true := by
  unfold stageSynthesize at h
  split at h
  · exact smallCard_has7 h
  · split at h
    · rename_i parsed c0 heq
      have h2 : Except.ok c0 = Except.ok c := h
      injection h2 with h3
      subst h3
      exact bigCard_has7 heq
    · exact smallCard_has7 h

theorem applyVerifiedTag_has7 {final f2 : Json} (h : applyVerifiedTag final = Except.ok f2)
    (hf : has7 final = true) : has7 f2 = true := by
  unfold applyVerifiedTag at h
  split at h
  · exact Except.noConfusion h
  · split at h
    · rename_i fs heq
      injection h with h2
      subst h2
      exact has7_jSet fs _ _ hf
    · exact Except.noConfusion h
  · split at h
    · rename_i l fs heq1 heq2
      injection h with h2
      subst h2
      exact has7_jSet fs _ _ hf
    · exact Except.noConfusion h

theorem tagAndFinish_has7 {conf final f2 : Json} (h : tagAndFinish conf final = Except.ok f2)
    (hf : has7 final = true) : has7 f2 = true := by
  unfold tagAndFinish at h
  split at h
  · exact Except.noConfusion h
  · rename_i ge hge
    split at h
    · exact Except.noConfusion h
    · rename_i f2' heq
      split_ifs at h
      · injection h with h2
        subst h2
        cases ge with
        | true =>
          simp only [if_true] at heq
          exact applyVerifiedTag_has7 heq hf
        | false =>
          simp only [Bool.false_eq_true, if_false] at heq
          injection heq with h3
          subst h3
          exact hf

theorem finishExcept_ok {ext : Json} {content : String} {calls : Nat} {st : List String}
    {ex : List (String × Json)} {out : RunOut}
    (h : finishExcept ext content calls st ex = Except.ok out) :
    has7 out.card = true ∧ out.fast = false := by
  unfold finishExcept at h
  split at h
  · rename_i c heq
    injection h with h2
    subst h2
    exact ⟨exceptCard_has7 heq, rfl⟩
  · exact Except.noConfusion h

/-- C2 (amended): every card `run` returns through the staged pipeline —
the synthesized card, possibly with the verified tag applied, or the
except-handler fallback — contains all seven required keys (title,
summary, key_points, tags, category, difficulty, action_items).  The fast
path is excluded: there `run` returns the model's parsed output verbatim,
and the values behind the seven keys are whatever the model produced, so
neither presence nor typing is guaranteed in general. -/
theorem card_fields_amended (e : Env) (content : String) (images : List String)
    (out : RunOut) (h : runPipeline e content images = Except.ok out)
    (hf : out.fast = false) : has7 out.card = true := by
  unfold runPipeline at h
  simp only [] at h
  split at h
  · injection h with h2
    subst h2
    exact Bool.noConfusion (hf : true = false)
  · split at h
    · split at h
      · exact (finishExcept_ok h).1
      · split at h
        · exact (finishExcept_ok h).1
        · split at h
          · split at h
            · exact (finishExcept_ok h).1
            · rename_i final heqsy
              split at h
              · rename_i f2 heqtf
                injection h with h2
                subst h2
                exact tagAndFinish_has7 heqtf (stageSynthesize_fst_ok heqsy)
              · exact (finishExcept_ok h).1
          · exact (finishExcept_ok h).1
    · exact (finishExcept_ok h).1

/-- C2 counterexample: a gateway whose reply is the valid, error-free
object `\x7b"a": 1\x7d` makes the fast path return that object as the
KnowledgeCard — with none of the seven required fields present. -/
theorem card_fields_counterexample :
    runPipeline envFast "0123456789" [] =
      Except.ok ⟨Json.obj [("a", Json.num "1")], 1, [], [], true⟩ ∧
    has7 (Json.obj [("a", Json.num "1")]) = false := ⟨rfl, rfl⟩

theorem card_fields_amended_witness :
    runPipeline envDead "0123456789" [] = Except.ok ⟨defaultSynthCard, 6,
      ["extract", "analyze", "search", "verify", "synthesize"],
      [("extract", Json.obj []), ("analyze", Json.obj []),
       ("search", Json.obj []), ("verify", Json.obj [])], false⟩ ∧
    (⟨defaultSynthCard, 6,
      ["extract", "analyze", "search", "verify", "synthesize"],
      [("extract", Json.obj []), ("analyze", Json.obj []),
       ("search", Json.obj []), ("verify", Json.obj [])], false⟩ : RunOut).fast = false ∧
    has7 (⟨defaultSynthCard, 6,
      ["extract", "analyze", "search", "verify", "synthesize"],
      [("extract", Json.obj []), ("analyze", Json.obj []),
       ("search", Json.obj []), ("verify", Json.obj [])], false⟩ : RunOut).card = true :=
  ⟨rfl, rfl, card_fields_amended envDead "0123456789" [] ⟨defaultSynthCard, 6,
      ["extract", "analyze", "search", "verify", "synthesize"],
      [("extract", Json.obj []), ("analyze", Json.obj []),
       ("search", Json.obj []), ("verify", Json.obj [])], false⟩ rfl rfl⟩

theorem pow10_eq (n : Nat) : pow10 n = 10 ^ n := by
  induction n with
  | zero => rfl
  | succ k ih =>
    rw [pow_succ]
    unfold pow10
    rw [ih]
    ring

theorem geSevenTenths_correct (neg : Bool) (m : Nat) (e : Int) :
    geSevenTenths neg m e =
      decide ((7 : ℚ)/10 ≤ (if neg = true then -((m : ℚ) * (10 : ℚ) ^ e)
        else (m : ℚ) * (10 : ℚ) ^ e)) := by
  have h10 : (0 : ℚ) < 10 := by norm_num
  have hvnn : (0 : ℚ) ≤ (m : ℚ) * (10 : ℚ) ^ e := by positivity
  cases neg with
  | true =>
    simp only [if_pos rfl, geSevenTenths, Bool.not_true, Bool.false_and]
    symm
    rw [decide_eq_false_iff_not]
    intro hc
    rw [if_pos trivial] at hc
    linarith
  | false =>
    simp only [geSevenTenths, Bool.not_false, Bool.true_and,
      Bool.false_eq_true, if_false]
    by_cases hk : 0 ≤ e + 1
    · rw [if_pos hk, decide_eq_decide]
      obtain ⟨k, hk2⟩ : ∃ k : Nat, e + 1 = (k : Int) := ⟨(e + 1).toNat, by omega⟩
      have hkt : (e + 1).toNat = k := by omega
      rw [hkt]
      have hmul : (m : ℚ) * 10 ^ e * 10 = (m : ℚ) * 10 ^ (k : ℕ) := by
        rw [mul_assoc, ← zpow_add_one₀ (by norm_num : (10 : ℚ) ≠ 0) e, hk2, zpow_natCast]
      rw [div_le_iff₀ h10, hmul]
      rw [show ((7 : ℚ) = ((7 : ℕ) : ℚ)) from by norm_num,
        show ((m : ℚ) * 10 ^ (k : ℕ) = ((m * pow10 k : ℕ) : ℚ)) from by
          push_cast [pow10_eq]
          ring]
      exact Nat.cast_le.symm
    · rw [if_neg hk, decide_eq_decide]
      obtain ⟨d, hd⟩ : ∃ d : Nat, e + 1 = -(d : Int) := ⟨(-(e + 1)).toNat, by omega⟩
      have hdt : (-(e + 1)).toNat = d := by omega
      rw [hdt]
      have hdp : (0 : ℚ) < 10 ^ (d : ℕ) := by positivity
      have hmul : (m : ℚ) * 10 ^ e * 10 = (m : ℚ) / 10 ^ (d : ℕ) := by
        rw [mul_assoc, ← zpow_add_one₀ (by norm_num : (10 : ℚ) ≠ 0) e, hd,
          zpow_neg, zpow_natCast, div_eq_mul_inv]
      rw [div_le_iff₀ h10, hmul, le_div_iff₀ hdp]
      rw [show ((7 : ℚ) * 10 ^ (d : ℕ) = ((7 * pow10 d : ℕ) : ℚ)) from by
          push_cast [pow10_eq]
          ring]
      exact Nat.cast_le.symm

theorem ratOfLit_zero_iff (l : List Char) : ratOfLit l = 0 ↔ (litParts l).2.1 = 0 := by
  unfold ratOfLit
  rcases hp : litParts l with ⟨neg, m, e⟩
  have hpow : (10 : ℚ) ^ e ≠ 0 := zpow_ne_zero e (by norm_num)
  cases neg with
  | true => simp [mul_eq_zero, hpow, Nat.cast_eq_zero, neg_eq_zero]
  | false => simp [mul_eq_zero, hpow, Nat.cast_eq_zero]

theorem jsonTruthy_num (lit : String) (h1 : lit ≠ "NaN") (h2 : lit ≠ "Infinity")
    (h3 : lit ≠ "-Infinity") :
    jsonTruthy (Json.num lit) = decide (ratOfLit lit.data ≠ 0) := by
  show (if lit = "NaN" ∨ lit = "Infinity" ∨ lit = "-Infinity" then true
    else decide ((litParts lit.data).2.1 ≠ 0)) = decide (ratOfLit lit.data ≠ 0)
  rw [if_neg (by tauto), decide_eq_decide]
  exact not_congr (ratOfLit_zero_iff lit.data).symm

theorem jGE7_eq_rat (lit : String) (h1 : lit ≠ "NaN") (h2 : lit ≠ "Infinity")
    (h3 : lit ≠ "-Infinity") :
    jGE7 (Json.num lit) = Except.ok (decide ((7 : ℚ)/10 ≤ ratOfLit lit.data)) := by
  rcases hp : litParts lit.data with ⟨neg, m, e⟩
  have hr : ratOfLit lit.data =
      (if neg = true then -((m : ℚ) * (10 : ℚ) ^ e) else (m : ℚ) * (10 : ℚ) ^ e) := by
    unfold ratOfLit
    rw [hp]
  show (if lit = "NaN" then Except.ok false
    else if lit = "Infinity" then Except.ok true
    else if lit = "-Infinity" then Except.ok false
    else match litParts lit.data with
      | (neg, m, e) => Except.ok (geSevenTenths neg m e)) =
    Except.ok (decide ((7 : ℚ)/10 ≤ ratOfLit lit.data))
  rw [if_neg h1, if_neg h2, if_neg h3, hp, hr]
  show Except.ok (geSevenTenths neg m e) = _
  rw [geSevenTenths_correct]
